import Mathlib

/-!
# Gwenview incremental decode pipeline

A shallow embedding of `GVDocumentDecodeImpl` (src/src/gvdocumentdecodeimpl.cpp):
the private data of the class becomes a record, every slot and every
`QImageConsumer` callback becomes a function on that record, and every signal
or call made on a collaborator is appended to a log.

The Qt and KDE classes the file uses are not part of the repository. They are
represented as follows.

* `QByteArray` is a list of bytes; `size()` is its length.
* `QImage` is `Option QImage`: `none` is the null image.
* `QImageDecoder` is an oracle. Each timer tick carries the reply the decoder
  would give if `decode` were called: the consumer callbacks it makes, in
  order, and the number it returns.
* `QTimer` is the flag `timerActive`; a tick is delivered only while it is set.
* `QGuardedPtr<KIO::Job>` is the flag `jobAlive`. A KIO job deletes itself after
  emitting `result`, which is what makes `mJob.isNull()` mean "source finished".
* `QTime` is a start stamp compared with a monotonic clock `now`.
-/

namespace Gwenview

/-! ## Qt value types -/

/-- Rectangle with inclusive corners, the representation `QRect` uses. -/
structure QRect where
  x1 : Int
  y1 : Int
  x2 : Int
  y2 : Int
deriving DecidableEq, Repr

namespace QRect

/-- Default constructed rectangle `QRect()`. -/
def null : QRect := ⟨0, 0, -1, -1⟩

/-- Qt `QRect::isNull`: width and height are both zero. -/
def isNull (r : QRect) : Bool := r.x2 == r.x1 - 1 && r.y2 == r.y1 - 1

/-- Qt `QRect::isValid`: left ≤ right and top ≤ bottom. -/
def isValid (r : QRect) : Bool := decide (r.x1 ≤ r.x2) && decide (r.y1 ≤ r.y2)

/-- Qt `QRect::operator|`: bounding rectangle; an invalid operand is ignored. -/
def unite (a b : QRect) : QRect :=
  if a.isValid then
    if b.isValid then
      ⟨min a.x1 b.x1, min a.y1 b.y1, max a.x2 b.x2, max a.y2 b.y2⟩
    else a
  else b

/-- Rectangle `QRect(QPoint(0,0), QSize(w,h))`. -/
def ofSize (w h : Int) : QRect := ⟨0, 0, w - 1, h - 1⟩

/-- Qt `QRect::contains(QPoint)`: the point lies within the inclusive corners. -/
def contains (r : QRect) (x y : Int) : Prop := r.x1 ≤ x ∧ x ≤ r.x2 ∧ r.y1 ≤ y ∧ y ≤ r.y2

end QRect

/-- Non-null `QImage`, reduced to the attributes the decode pipeline reads. -/
structure QImage where
  width : Int
  height : Int
  depth : Nat
  hasAlphaBuffer : Bool
deriving DecidableEq, Repr

/-- Qt `QImage::convertDepth`: same picture at another depth. -/
def QImage.convertDepth (img : QImage) (d : Nat) : QImage := { img with depth := d }

/-- Bytes of the raw file. -/
abbrev Byte := Nat

/-- Value of `DECODE_CHUNK_SIZE`. -/
def DECODE_CHUNK_SIZE : Nat := 4096

/-- Modulus of `unsigned int` arithmetic, 2 ^ 32. -/
def UINT_MOD : Nat := 4294967296

/-! ## Collaborators -/

/-- Collaborators whose answers depend only on their arguments. -/
structure Env where
  /-- Result of `QImage::loadFromData` on the whole buffer (`none`: failure). -/
  loadFromData : List Byte → Option QImage
  /-- Result of `QImageIO::imageFormat` on the buffer (`none`: null pointer). -/
  imageFormat : List Byte → Option String
  /-- Value of `mDocument->url().isLocalFile()`. -/
  urlIsLocalFile : Bool
  /-- Name `KTempFile` gives the file it creates. -/
  tempFileName : String

/-- Implementation object handed to `switchToImpl`. -/
inductive Impl where
  | empty
  | loaded
  | jpegLoaded (rawData : List Byte) (tempFilePath : String)
deriving DecidableEq, Repr

/-- Signals emitted and calls made on collaborators. -/
inductive Action where
  | finished (ok : Bool)
  | sizeUpdated (width height : Int)
  | rectUpdated (rect : QRect)
  | setImage (img : Option QImage)
  | setImageFormat (format : Option String)
  | decode (slice : List Byte)
  | loadFromData (rawData : List Byte)
  | writeTempFile (path : String) (bytes : List Byte)
  | switchToImpl (impl : Impl)
deriving DecidableEq, Repr

/-- Member function that produced a log entry. -/
inductive Site where
  | slotResult
  | asyncDecode
  | syncDecode
  | loadChunk
  | end_
  | changed
  | setSize
deriving DecidableEq, Repr

/-- Log entry: when, from where, what. -/
structure Emission where
  time : Nat
  site : Site
  act : Action
deriving DecidableEq, Repr

/-- What the decoder does during one `decode` call, besides returning. -/
inductive ConsumerCall where
  | setSize (width height : Int)
  | changed (rect : QRect)
  | end_
  | frameDone
  | setLooping
  | setFramePeriod
  /-- Time passing while the decoder works. -/
  | elapse (ms : Nat)
  /-- The decoder replaces the image returned by `QImageDecoder::image`. -/
  | image (img : Option QImage)
deriving DecidableEq, Repr

/-- Reply of `QImageDecoder::decode`: callbacks made, then the return value. -/
structure DecoderReply where
  calls : List ConsumerCall
  consumed : Int
deriving DecidableEq, Repr

/-! ## Private data -/

/-- Fields of `GVDocumentDecodeImplPrivate`, the clock, and whether the object
still exists (`switchToImpl` replaces it). -/
structure State where
  mUpdatedDuringLoad : Bool
  mRawData : List Byte
  mReadSize : Nat
  /-- Value of `mDecoder.image()`. -/
  decoderImage : Option QImage
  /-- Value of `mDecoderTimer.isActive()`. -/
  timerActive : Bool
  mLoadChangedRect : QRect
  /-- Instant of the last `mLoadCompressChangesTime.start()`. -/
  clockStart : Nat
  /-- Value of `!mJob.isNull()`. -/
  jobAlive : Bool
  mSuspended : Bool
  mSyncDecode : Bool
  now : Nat
  alive : Bool
deriving DecidableEq, Repr

/-- Value of `mLoadCompressChangesTime.elapsed()`. -/
def State.elapsed (s : State) : Nat := s.now - s.clockStart

/-- Log entry stamped with the current time. -/
def State.emit (s : State) (site : Site) (a : Action) : Emission := ⟨s.now, site, a⟩

/-- State left by the constructor. `mSyncDecode` has no initializer there;
`startLoading` assigns it before any use. -/
def constructed (now : Nat) : State :=
  { mUpdatedDuringLoad := false
    mRawData := []
    mReadSize := 0
    decoderImage := none
    timerActive := false
    mLoadChangedRect := QRect.null
    clockStart := now
    jobAlive := false
    mSuspended := false
    mSyncDecode := false
    now := now
    alive := true }

/-- Slot `startLoading`: the job is created and the session fields are reset. -/
def startLoading (s : State) : State :=
  { s with
    jobAlive := true
    mRawData := []
    mReadSize := 0
    mLoadChangedRect := QRect.null
    mSyncDecode := false
    clockStart := s.now }

/-- State at session start. -/
def initial (now : Nat) : State := startLoading (constructed now)

/-! ## Slots -/

/-- Slot `slotResult`, up to the moment it returns. -/
def slotResult (s : State) (error : Int) : State × List Emission :=
  if error = 0 then
    ({ s with timerActive := true }, [])
  else
    ({ s with alive := false },
      [s.emit .slotResult (.finished false), s.emit .slotResult (.switchToImpl .empty)])

/-- Slot `slotDataReceived`. -/
def slotDataReceived (s : State) (chunk : List Byte) : State :=
  let s1 := if chunk.length > 0 then { s with mRawData := s.mRawData ++ chunk } else s
  if !s1.timerActive then { s1 with timerActive := true } else s1

/-- Method `suspendLoading`. -/
def suspendLoading (s : State) : State :=
  { s with timerActive := false, mSuspended := true }

/-- Method `resumeLoading`. -/
def resumeLoading (s : State) : State :=
  let s1 := { s with mSuspended := false }
  if s1.mReadSize < s1.mRawData.length || !s1.jobAlive then
    { s1 with timerActive := true }
  else s1

/-! ## QImageConsumer callbacks -/

/-- Callback `end`. -/
def end_ (s : State) : State × List Emission :=
  if !s.mLoadChangedRect.isNull then
    (s, [s.emit .end_ (.rectUpdated s.mLoadChangedRect)])
  else (s, [])

/-- Callback `changed`. -/
def changed (s : State) (rect : QRect) : State × List Emission :=
  let log1 := if !s.mUpdatedDuringLoad then [s.emit .changed (.setImage s.decoderImage)] else []
  let s1 := if !s.mUpdatedDuringLoad then { s with mUpdatedDuringLoad := true } else s
  let s2 := { s1 with mLoadChangedRect := s1.mLoadChangedRect.unite rect }
  if s2.elapsed > 100 then
    ({ s2 with mLoadChangedRect := QRect.null, clockStart := s2.now },
      log1 ++ [s2.emit .changed (.rectUpdated s2.mLoadChangedRect)])
  else (s2, log1)

/-- Callback `setSize`. -/
def setSize (s : State) (width height : Int) : State × List Emission :=
  (s, [s.emit .setSize (.setImage (some ⟨width, height, 32, false⟩)),
       s.emit .setSize (.sizeUpdated width height)])

/-- One thing the decoder does during `decode`. -/
def consumerCall (s : State) : ConsumerCall → State × List Emission
  | .setSize w h => setSize s w h
  | .changed r => changed s r
  | .end_ => end_ s
  | .frameDone => (s, [])
  | .setLooping => (s, [])
  | .setFramePeriod => (s, [])
  | .elapse ms => ({ s with now := s.now + ms }, [])
  | .image img => ({ s with decoderImage := img }, [])

/-- Everything the decoder does during one `decode` call, in order. -/
def consumerCalls : State → List ConsumerCall → State × List Emission
  | s, [] => (s, [])
  | s, c :: cs =>
    let r1 := consumerCall s c
    let r2 := consumerCalls r1.1 cs
    (r2.1, r1.2 ++ r2.2)

/-! ## Decoding -/

/-- Result of `asyncDecode` and `syncDecode`: the new private data, the log,
the out-parameter `ok` and the returned image. -/
structure Decoded where
  state : State
  log : List Emission
  ok : Bool
  image : Option QImage

/-- Local `chunkSize` of `asyncDecode`:
`QMIN(DECODE_CHUNK_SIZE, int(mRawData.size()) - mReadSize)`, computed in
`unsigned int`. -/
def chunkSize (s : State) : Nat :=
  min DECODE_CHUNK_SIZE (((s.mRawData.length : Int) - (s.mReadSize : Int)) % (UINT_MOD : Int)).toNat

/-- Bytes passed to `mDecoder.decode`: `chunkSize` bytes from offset `mReadSize`. -/
def chunk (s : State) : List Byte := (s.mRawData.drop s.mReadSize).take (chunkSize s)

/-- Method `syncDecode`. -/
def syncDecode (env : Env) (s : State) : Decoded :=
  if s.jobAlive then ⟨s, [], true, none⟩
  else
    let s1 := { s with mUpdatedDuringLoad := false, mReadSize := s.mRawData.length }
    let call := s1.emit .syncDecode (.loadFromData s1.mRawData)
    match env.loadFromData s1.mRawData with
    | none => ⟨s1, [call], false, none⟩
    | some image => ⟨s1, [call], true, some image⟩

/-- First statements of `asyncDecode`: `decodedSize` starts at 0 and the decoder
is called only if `chunkSize > 0`. Returns the state and log after the
decoder's callbacks, and `decodedSize`. -/
def feedDecoder (s : State) (reply : DecoderReply) : State × List Emission × Int :=
  if chunkSize s > 0 then
    let r := consumerCalls s reply.calls
    (r.1, s.emit .asyncDecode (.decode (chunk s)) :: r.2, reply.consumed)
  else (s, [], 0)

/-- Method `asyncDecode`. -/
def asyncDecode (env : Env) (s : State) (reply : DecoderReply) : Decoded :=
  let fed := feedDecoder s reply
  let s1 := fed.1
  let log1 := fed.2.1
  let decodedSize := fed.2.2
  if decodedSize > 0 then
    ⟨{ s1 with mReadSize := (s1.mReadSize + decodedSize.toNat) % UINT_MOD }, log1, true, none⟩
  else if decodedSize = 0 ∧ s1.jobAlive then
    ⟨s1, log1, true, none⟩
  else if decodedSize < 0 then
    let d := syncDecode env { s1 with mSyncDecode := true }
    ⟨d.state, log1 ++ d.log, d.ok, d.image⟩
  else
    ⟨s1, log1, true, s1.decoderImage⟩

/-- Depth conversion of `loadChunk`: an image with an alpha buffer and fewer
than 32 bits is converted to 32 bits. -/
def normalizeDepth (image : QImage) : QImage :=
  if image.depth < 32 ∧ image.hasAlphaBuffer then image.convertDepth 32 else image

/-- Last block of `loadChunk`: the switch to a loaded implementation. -/
def switchToLoaded (env : Env) (s : State) (format : Option String) : List Emission :=
  if format = some "JPEG" then
    if !env.urlIsLocalFile then
      [s.emit .loadChunk (.writeTempFile env.tempFileName s.mRawData),
       s.emit .loadChunk (.switchToImpl (.jpegLoaded s.mRawData env.tempFileName))]
    else
      [s.emit .loadChunk (.switchToImpl (.jpegLoaded s.mRawData ""))]
  else
    [s.emit .loadChunk (.switchToImpl .loaded)]

/-- Part of `loadChunk` after "loading succeeded". -/
def loadingSucceeded (env : Env) (s : State) (image : QImage) : State × List Emission :=
  let s1 := { s with timerActive := false }
  let format := env.imageFormat s1.mRawData
  let log1 := [s1.emit .loadChunk (.setImageFormat format)]
  let image1 := normalizeDepth image
  let s2 := if image.depth < 32 ∧ image.hasAlphaBuffer then
      { s1 with mUpdatedDuringLoad := false } else s1
  let log2 := if !s2.mUpdatedDuringLoad then
      [s2.emit .loadChunk (.setImage (some image1)),
       s2.emit .loadChunk (.sizeUpdated image1.width image1.height),
       s2.emit .loadChunk (.rectUpdated (QRect.ofSize image1.width image1.height))]
    else []
  ({ s2 with alive := false }, log1 ++ log2 ++ switchToLoaded env s2 format)

/-- Decode call of `loadChunk`: `mSyncDecode ? syncDecode(ok) : asyncDecode(ok)`. -/
def decodeStep (env : Env) (s : State) (reply : DecoderReply) : Decoded :=
  if s.mSyncDecode then syncDecode env s else asyncDecode env s reply

/-- Slot `loadChunk`. -/
def loadChunk (env : Env) (s : State) (reply : DecoderReply) : State × List Emission :=
  if s.mSuspended then
    ({ s with timerActive := false }, [])
  else
    let d := decodeStep env s reply
    if !d.ok then
      let s1 := { d.state with timerActive := false }
      ({ s1 with alive := false },
        d.log ++ [s1.emit .loadChunk (.finished false), s1.emit .loadChunk (.switchToImpl .empty)])
    else
      match d.image with
      | none =>
        if d.state.mReadSize = d.state.mRawData.length ∧ d.state.jobAlive then
          ({ d.state with timerActive := false }, d.log)
        else (d.state, d.log)
      | some image =>
        let r := loadingSucceeded env d.state image
        (r.1, d.log ++ r.2)

/-! ## Event loop -/

/-- What the single event loop can deliver to the object. -/
inductive Event where
  /-- Signal `data` of the job. -/
  | data (chunk : List Byte)
  /-- Signal `result` of the job, with `job->error()`. -/
  | result (error : Int)
  /-- Timeout of `mDecoderTimer`, with the decoder's reply should it be asked. -/
  | tick (reply : DecoderReply)
  | suspend
  | resume
  /-- Time passing between events. -/
  | elapse (ms : Nat)
deriving DecidableEq, Repr

/-- Delivery of one event. A replaced object receives nothing, a stopped timer
does not fire, and a finished job emits nothing; the job deletes itself when
`slotResult` returns. -/
def step (env : Env) (s : State) : Event → State × List Emission
  | .elapse ms => ({ s with now := s.now + ms }, [])
  | .data c => if s.alive ∧ s.jobAlive then (slotDataReceived s c, []) else (s, [])
  | .result error =>
    if s.alive ∧ s.jobAlive then
      let r := slotResult s error
      ({ r.1 with jobAlive := false }, r.2)
    else (s, [])
  | .tick reply => if s.alive ∧ s.timerActive then loadChunk env s reply else (s, [])
  | .suspend => if s.alive then (suspendLoading s, []) else (s, [])
  | .resume => if s.alive then (resumeLoading s, []) else (s, [])

/-- Delivery of a sequence of events. -/
def run (env : Env) : State → List Event → State × List Emission
  | s, [] => (s, [])
  | s, e :: es =>
    let r1 := step env s e
    let r2 := run env r1.1 es
    (r2.1, r1.2 ++ r2.2)

/-- The tick reaches `mDecoder.decode`. -/
def decoderAsked (s : State) : Prop :=
  s.alive ∧ s.timerActive ∧ ¬ s.mSuspended ∧ ¬ s.mSyncDecode ∧ 0 < chunkSize s

instance (s : State) : Decidable (decoderAsked s) := by
  unfold decoderAsked; infer_instance

/-- The decoder never reports consuming more bytes than it was given. -/
def Honest (env : Env) : State → List Event → Prop
  | _, [] => True
  | s, e :: es =>
    (match e with
      | .tick reply => decoderAsked s → reply.consumed ≤ chunkSize s
      | _ => True) ∧ Honest env (step env s e).1 es

instance Honest.decidable (env : Env) : (s : State) → (es : List Event) → Decidable (Honest env s es)
  | _, [] => isTrue trivial
  | s, e :: es =>
    have : Decidable (Honest env (step env s e).1 es) := Honest.decidable env _ es
    match e with
    | .tick reply => inferInstanceAs (Decidable ((decoderAsked s → reply.consumed ≤ chunkSize s) ∧ _))
    | .data _ => inferInstanceAs (Decidable (True ∧ _))
    | .result _ => inferInstanceAs (Decidable (True ∧ _))
    | .suspend => inferInstanceAs (Decidable (True ∧ _))
    | .resume => inferInstanceAs (Decidable (True ∧ _))
    | .elapse _ => inferInstanceAs (Decidable (True ∧ _))

/-! ## Sample collaborators and sessions -/

/-- Collaborators of a remote PNG whose whole-buffer decode fails. -/
def sampleEnv : Env := ⟨fun _ => none, fun _ => some "PNG", false, "/tmp/gvremotefile"⟩

/-- Three bytes arrive, the decoder takes two and then one, the source finishes. -/
def sampleSession : List Event :=
  [.data [1, 2, 3], .tick ⟨[], 2⟩, .suspend, .resume, .tick ⟨[], 1⟩, .result 0]

/-- Suspend request, then ticks, then resume request. -/
def roundTrip (env : Env) (s : State) (replies : List DecoderReply) : State × List Emission :=
  run env s (.suspend :: (replies.map .tick ++ [.resume]))

/-! ## Reading the log -/

/-- Entries made while decoding goes on: bytes fed to the decoder and the
notifications its callbacks cause. The others end the session or belong to the
whole-buffer decode. -/
def Action.streaming : Action → Bool
  | .decode _ => true
  | .setImage _ => true
  | .sizeUpdated _ _ => true
  | .rectUpdated _ => true
  | _ => false

/-- Hand-off of a successfully loaded document. -/
def Action.isHandOff : Action → Bool
  | .switchToImpl .loaded => true
  | .switchToImpl (.jpegLoaded _ _) => true
  | _ => false

/-- Whole-buffer decode call. -/
def Action.isLoadFromData : Action → Bool
  | .loadFromData _ => true
  | _ => false

/-- Number of log entries whose action satisfies `p`. -/
def countAct (p : Action → Bool) (log : List Emission) : Nat :=
  (log.filter (fun e => p e.act)).length

/-- Signal `finished(ok)`. -/
def Action.isFinished (ok : Bool) : Action → Bool
  | .finished b => b == ok
  | _ => false

/-- Whole-buffer decode call on exactly `raw`. -/
def Action.isLoadFromDataOf (raw : List Byte) : Action → Bool
  | .loadFromData r => r == raw
  | _ => false

/-- Signal `rectUpdated`. -/
def Action.isRectUpdated : Action → Bool
  | .rectUpdated _ => true
  | _ => false

/-- Signal `sizeUpdated`. -/
def Action.isSizeUpdated : Action → Bool
  | .sizeUpdated _ _ => true
  | _ => false

/-- Times of all `rectUpdated` emissions, in order. -/
def rectTimes (log : List Emission) : List Nat :=
  (log.filter (fun e => e.act.isRectUpdated)).map (fun e => e.time)

/-- Sites of all `rectUpdated` emissions, in order. -/
def rectSites (log : List Emission) : List Site :=
  (log.filter (fun e => e.act.isRectUpdated)).map (fun e => e.site)

/-- Times of the `rectUpdated` emissions made by the callback `changed`. -/
def changedTimes (log : List Emission) : List Nat :=
  (log.filter (fun e => e.site == .changed && e.act.isRectUpdated)).map (fun e => e.time)

/-- Every time in the list is more than 100 ms after the one before it, the
first one more than 100 ms after `t0`. -/
def spacedFrom : Nat → List Nat → Prop
  | _, [] => True
  | t0, t :: ts => t0 + 100 < t ∧ spacedFrom t ts

instance spacedFrom.decidable : (t0 : Nat) → (ts : List Nat) → Decidable (spacedFrom t0 ts)
  | _, [] => isTrue trivial
  | t0, t :: ts =>
    have : Decidable (spacedFrom t ts) := spacedFrom.decidable t ts
    inferInstanceAs (Decidable (t0 + 100 < t ∧ spacedFrom t ts))

/-- Coalescing bound as the specification words it: consecutive emissions are
more than 100 ms apart, the last emission of the session excepted. -/
def coalescingBound : List Nat → Bool
  | a :: b :: c :: rest => decide (a + 100 < b) && coalescingBound (b :: c :: rest)
  | _ => true

/-- A session of a small paletted image with transparency: three bytes arrive,
101 ms later one decode call reports the size, two changed rows and the end,
then the source finishes and the next tick completes the load. -/
def alphaSession : List Event :=
  [.data [1, 2, 3], .elapse 101,
   .tick ⟨[.image (some ⟨2, 2, 8, true⟩), .setSize 2 2, .changed ⟨0, 0, 1, 0⟩,
     .changed ⟨0, 1, 1, 1⟩, .end_], 3⟩,
   .result 0, .tick ⟨[], 0⟩]

/-- Entries of the format finalizer: the temporary file and the hand-off. -/
def Action.isFinalizer : Action → Bool
  | .writeTempFile _ _ => true
  | .switchToImpl _ => true
  | _ => false

/-- Finalizer actions of a log, in order. -/
def finalizerActs (log : List Emission) : List Action :=
  (log.filter (fun e => e.act.isFinalizer)).map (fun e => e.act)

/-- Images passed to `setImage` by `loadChunk` itself, that is, at completion. -/
def completionImages (log : List Emission) : List (Option QImage) :=
  log.filterMap (fun e =>
    match e.site, e.act with
    | .loadChunk, .setImage img => some img
    | _, _ => none)

/-- Sizes announced by `sizeUpdated` from `loadChunk` itself, that is, at completion. -/
def completionSizes (log : List Emission) : List (Int × Int) :=
  log.filterMap (fun e =>
    match e.site, e.act with
    | .loadChunk, .sizeUpdated w h => some (w, h)
    | _, _ => none)

/-- Sizes announced by `sizeUpdated` from the callback `setSize`, during streaming. -/
def streamingSizes (log : List Emission) : List (Int × Int) :=
  log.filterMap (fun e =>
    match e.site, e.act with
    | .setSize, .sizeUpdated w h => some (w, h)
    | _, _ => none)

/-- Collaborators of a remote JPEG that the whole-buffer decoder can load. -/
def jpegEnv : Env :=
  ⟨fun _ => some ⟨4, 3, 32, false⟩, fun _ => some "JPEG", false, "/tmp/gvremotefile"⟩

/-! ## Predicates used in the proofs -/

/-- Scheduler fields no consumer callback writes. -/
def sameScheduler (s t : State) : Prop :=
  t.mRawData = s.mRawData ∧ t.mReadSize = s.mReadSize ∧ t.timerActive = s.timerActive ∧
  t.jobAlive = s.jobAlive ∧ t.mSuspended = s.mSuspended ∧ t.mSyncDecode = s.mSyncDecode ∧
  t.alive = s.alive

/-- Fields neither decode function writes. -/
def sameControl (s t : State) : Prop :=
  t.mRawData = s.mRawData ∧ t.timerActive = s.timerActive ∧ t.jobAlive = s.jobAlive ∧
  t.mSuspended = s.mSuspended ∧ t.alive = s.alive

/-- A live, unsuspended scheduler whose timer is stopped has read everything
received so far and is waiting for a job that still runs. -/
def waitingForData (s : State) : Prop :=
  s.alive = true → s.mSuspended = false → s.timerActive = false →
    ¬ s.mReadSize < s.mRawData.length ∧ s.jobAlive = true

/-- The emissions of `changed` in the log are spaced starting from the clock
start of `s`, and the clock start of the result is the last of them. -/
def Coalesced (s : State) (r : State × List Emission) : Prop :=
  spacedFrom s.clockStart (changedTimes r.2) ∧
  r.1.clockStart = (changedTimes r.2).getLastD s.clockStart

/-- Whether the completion step of `loadChunk` delivers the image itself:
the flag `mUpdatedDuringLoad` is clear, or the depth conversion clears it. -/
def deliversAtCompletion (s : State) (image : QImage) : Bool :=
  !s.mUpdatedDuringLoad || (decide (image.depth < 32) && image.hasAlphaBuffer)

/-- Some entry of the log was made by the callback `changed`. -/
def changedRan (log : List Emission) : Prop := ∃ x ∈ log, x.site = .changed

/-- The flag `mUpdatedDuringLoad` after a step is set exactly if it was set
before or the step logged an entry from `changed`. -/
def FlagTracks (s : State) (r : State × List Emission) : Prop :=
  r.1.mUpdatedDuringLoad = true ↔ (s.mUpdatedDuringLoad = true ∨ changedRan r.2)

/-! ## Reading decoder calls -/

/-- Terminal notifications: `finished` and the switch to another implementation. -/
def Action.isTerminal : Action → Bool
  | .finished _ => true
  | .switchToImpl _ => true
  | _ => false

/-- Slices passed to `mDecoder.decode`, in order. -/
def decodeCalls (log : List Emission) : List (List Byte) :=
  log.filterMap (fun e =>
    match e.act with
    | .decode slice => some slice
    | _ => none)

/-! ## The image the document holds -/

theorem sameScheduler_refl (s : State) : sameScheduler s s := by
  simp [sameScheduler]

theorem sameScheduler_trans {s t u : State} (h1 : sameScheduler s t) (h2 : sameScheduler t u) :
    sameScheduler s u := by
  obtain ⟨a1, a2, a3, a4, a5, a6, a7⟩ := h1
  obtain ⟨b1, b2, b3, b4, b5, b6, b7⟩ := h2
  exact ⟨b1.trans a1, b2.trans a2, b3.trans a3, b4.trans a4, b5.trans a5, b6.trans a6,
    b7.trans a7⟩

theorem changed_sameScheduler (s : State) (r : QRect) : sameScheduler s (changed s r).1 := by
  unfold changed sameScheduler
  by_cases h1 : s.mUpdatedDuringLoad <;> simp [h1] <;> split <;> simp

theorem end_sameScheduler (s : State) : sameScheduler s (end_ s).1 := by
  unfold end_ sameScheduler
  split <;> simp

theorem consumerCall_sameScheduler (s : State) (c : ConsumerCall) :
    sameScheduler s (consumerCall s c).1 := by
  cases c with
  | changed r => exact changed_sameScheduler s r
  | end_ => exact end_sameScheduler s
  | setSize w h => simp [consumerCall, setSize, sameScheduler]
  | frameDone => simp [consumerCall, sameScheduler]
  | setLooping => simp [consumerCall, sameScheduler]
  | setFramePeriod => simp [consumerCall, sameScheduler]
  | elapse ms => simp [consumerCall, sameScheduler]
  | image img => simp [consumerCall, sameScheduler]

theorem consumerCalls_sameScheduler (cs : List ConsumerCall) (s : State) :
    sameScheduler s (consumerCalls s cs).1 := by
  induction cs generalizing s with
  | nil => exact sameScheduler_refl s
  | cons c cs ih =>
    simp only [consumerCalls]
    exact sameScheduler_trans (consumerCall_sameScheduler s c) (ih _)

theorem chunkSize_le (s : State) (h : s.mReadSize ≤ s.mRawData.length) :
    s.mReadSize + chunkSize s ≤ s.mRawData.length := by
  unfold chunkSize UINT_MOD DECODE_CHUNK_SIZE
  push_cast
  omega

theorem chunkSize_eq (s : State) (h : s.mReadSize ≤ s.mRawData.length)
    (hlen : s.mRawData.length < UINT_MOD) :
    chunkSize s = min 4096 (s.mRawData.length - s.mReadSize) := by
  unfold chunkSize UINT_MOD DECODE_CHUNK_SIZE
  unfold UINT_MOD at hlen
  push_cast
  omega

/-! ## The read cursor stays inside the buffer (C1) -/

theorem syncDecode_state (env : Env) (s : State) :
    (syncDecode env s).state = s ∨
    (syncDecode env s).state =
      { s with mUpdatedDuringLoad := false, mReadSize := s.mRawData.length } := by
  unfold syncDecode
  cases hj : s.jobAlive
  · right
    cases hl : env.loadFromData s.mRawData <;> simp [hl]
  · left; simp

theorem syncDecode_readSize_le (env : Env) (s : State)
    (h : s.mReadSize ≤ s.mRawData.length) :
    (syncDecode env s).state.mReadSize ≤ (syncDecode env s).state.mRawData.length := by
  rcases syncDecode_state env s with e | e
  · rw [e]; exact h
  · simp [e]

theorem feedDecoder_sameScheduler (s : State) (reply : DecoderReply) :
    sameScheduler s (feedDecoder s reply).1 := by
  unfold feedDecoder
  split
  · exact consumerCalls_sameScheduler reply.calls s
  · exact sameScheduler_refl s

theorem feedDecoder_size (s : State) (reply : DecoderReply) :
    (feedDecoder s reply).2.2 = 0 ∨
    (0 < chunkSize s ∧ (feedDecoder s reply).2.2 = reply.consumed) := by
  unfold feedDecoder
  split
  · right; exact ⟨by assumption, rfl⟩
  · left; rfl

theorem asyncDecode_readSize_le (env : Env) (s : State) (reply : DecoderReply)
    (h : s.mReadSize ≤ s.mRawData.length)
    (hh : 0 < chunkSize s → reply.consumed ≤ chunkSize s) :
    (asyncDecode env s reply).state.mReadSize ≤ (asyncDecode env s reply).state.mRawData.length := by
  have hc := chunkSize_le s h
  obtain ⟨f1, f2, -⟩ := feedDecoder_sameScheduler s reply
  have hn := feedDecoder_size s reply
  have hs1 : (feedDecoder s reply).1.mReadSize ≤ (feedDecoder s reply).1.mRawData.length := by
    rw [f1, f2]; exact h
  unfold asyncDecode
  simp only
  split_ifs with h1 h2 h3
  · simp only [f1, f2]
    have : (s.mReadSize + (feedDecoder s reply).2.2.toNat) % UINT_MOD
        ≤ s.mReadSize + (feedDecoder s reply).2.2.toNat := Nat.mod_le _ _
    rcases hn with e | ⟨hpos, e⟩
    · omega
    · have := hh hpos
      omega
  · exact hs1
  · exact syncDecode_readSize_le env _ hs1
  · exact hs1

theorem loadingSucceeded_state (env : Env) (s : State) (image : QImage) :
    ∃ u, (loadingSucceeded env s image).1 =
      { s with timerActive := false, mUpdatedDuringLoad := u, alive := false } := by
  unfold loadingSucceeded
  by_cases h : image.depth < 32 ∧ image.hasAlphaBuffer = true
  · exact ⟨false, by simp [h]⟩
  · exact ⟨s.mUpdatedDuringLoad, by simp [h]⟩

theorem loadChunk_suspended (env : Env) (s : State) (reply : DecoderReply)
    (h : s.mSuspended = true) :
    loadChunk env s reply = ({ s with timerActive := false }, []) := by
  simp [loadChunk, h]

theorem loadChunk_state (env : Env) (s : State) (reply : DecoderReply)
    (h : s.mSuspended = false) :
    let d := decodeStep env s reply
    (∃ u, (loadChunk env s reply).1 =
        { d.state with timerActive := false, mUpdatedDuringLoad := u, alive := false }) ∨
    ((loadChunk env s reply).1 = { d.state with timerActive := false } ∧
        d.state.mReadSize = d.state.mRawData.length ∧ d.state.jobAlive = true) ∨
    ((loadChunk env s reply).1 = d.state) := by
  intro d
  have hd : d = decodeStep env s reply := rfl
  unfold loadChunk
  simp only [h, Bool.false_eq_true, if_false]
  rw [← hd]
  cases hok : d.ok
  · left
    exact ⟨d.state.mUpdatedDuringLoad, by simp⟩
  · simp only [Bool.not_true, Bool.false_eq_true, if_false]
    cases hi : d.image with
    | none =>
      simp only
      split_ifs with hc
      · right; left; exact ⟨rfl, hc.1, hc.2⟩
      · right; right; rfl
    | some image =>
      left
      simp only
      exact loadingSucceeded_state env d.state image

theorem decodeStep_readSize_le (env : Env) (s : State) (reply : DecoderReply)
    (h : s.mReadSize ≤ s.mRawData.length)
    (hh : s.mSyncDecode = false → 0 < chunkSize s → reply.consumed ≤ chunkSize s) :
    (decodeStep env s reply).state.mReadSize ≤ (decodeStep env s reply).state.mRawData.length := by
  unfold decodeStep
  cases hm : s.mSyncDecode
  · simpa using asyncDecode_readSize_le env s reply h (hh hm)
  · simpa using syncDecode_readSize_le env s h

theorem loadChunk_readSize_le (env : Env) (s : State) (reply : DecoderReply)
    (h : s.mReadSize ≤ s.mRawData.length)
    (hh : s.mSuspended = false → s.mSyncDecode = false → 0 < chunkSize s →
      reply.consumed ≤ chunkSize s) :
    (loadChunk env s reply).1.mReadSize ≤ (loadChunk env s reply).1.mRawData.length := by
  cases hs : s.mSuspended
  · have hd := decodeStep_readSize_le env s reply h (hh hs)
    rcases loadChunk_state env s reply hs with ⟨u, e⟩ | ⟨e, -⟩ | e <;> rw [e] <;> exact hd
  · rw [loadChunk_suspended env s reply hs]; exact h

theorem step_readSize_le (env : Env) (s : State) (e : Event)
    (h : s.mReadSize ≤ s.mRawData.length)
    (hh : ∀ reply, e = .tick reply → decoderAsked s → reply.consumed ≤ chunkSize s) :
    (step env s e).1.mReadSize ≤ (step env s e).1.mRawData.length := by
  cases e with
  | elapse ms => simpa [step] using h
  | data c =>
    simp only [step, slotDataReceived]
    split_ifs <;> simp [List.length_append] <;> omega
  | result err =>
    simp only [step, slotResult]
    split_ifs <;> exact h
  | tick reply =>
    simp only [step]
    split_ifs with ha
    · apply loadChunk_readSize_le env s reply h
      intro h1 h2 h3
      exact hh reply rfl ⟨ha.1, ha.2, by simp [h1], by simp [h2], h3⟩
    · exact h
  | suspend =>
    simp only [step, suspendLoading]
    split_ifs <;> exact h
  | resume =>
    simp only [step, resumeLoading]
    split_ifs <;> exact h

theorem run_readSize_le (env : Env) (es : List Event) (s : State)
    (h : s.mReadSize ≤ s.mRawData.length) (hh : Honest env s es) :
    (run env s es).1.mReadSize ≤ (run env s es).1.mRawData.length := by
  induction es generalizing s with
  | nil => exact h
  | cons e es ih =>
    simp only [run]
    obtain ⟨h1, h2⟩ := hh
    apply ih _ _ h2
    apply step_readSize_le env s e h
    intro reply he
    subst he
    exact h1

/-- C1: in every state reached from session start by data arrivals, ticks,
suspend and resume requests, source results and clock advances, the read
cursor lies between 0 and the length of the raw buffer, provided the decoder
never reports consuming more bytes than the slice it was given. -/
theorem C1_read_cursor_within_buffer (env : Env) (now : Nat) (es : List Event)
    (h : Honest env (initial now) es) :
    0 ≤ (run env (initial now) es).1.mReadSize ∧
    (run env (initial now) es).1.mReadSize ≤ (run env (initial now) es).1.mRawData.length :=
  ⟨Nat.zero_le _, run_readSize_le env es (initial now) (Nat.le_refl 0) h⟩

theorem C1_read_cursor_within_buffer_witness :
    Honest sampleEnv (initial 0) sampleSession ∧
    (run sampleEnv (initial 0) sampleSession).1.mReadSize = 3 ∧
    (run sampleEnv (initial 0) sampleSession).1.mReadSize ≤
      (run sampleEnv (initial 0) sampleSession).1.mRawData.length :=
  ⟨by decide, by decide,
    (C1_read_cursor_within_buffer sampleEnv 0 sampleSession (by decide)).2⟩

/-! ## A stopped timer means waiting for data (C2, C3) -/

theorem syncDecode_sameControl (env : Env) (s : State) :
    sameControl s (syncDecode env s).state := by
  rcases syncDecode_state env s with e | e <;> rw [e] <;> simp [sameControl]

theorem asyncDecode_sameControl (env : Env) (s : State) (reply : DecoderReply) :
    sameControl s (asyncDecode env s reply).state := by
  obtain ⟨f1, -, f3, f4, f5, -, f7⟩ := feedDecoder_sameScheduler s reply
  have hc : sameControl s (feedDecoder s reply).1 := ⟨f1, f3, f4, f5, f7⟩
  unfold asyncDecode
  simp only
  split_ifs
  · exact hc
  · exact hc
  · obtain ⟨a1, a2, a3, a4, a5⟩ :=
      syncDecode_sameControl env { (feedDecoder s reply).1 with mSyncDecode := true }
    exact ⟨a1.trans f1, a2.trans f3, a3.trans f4, a4.trans f5, a5.trans f7⟩
  · exact hc

theorem decodeStep_sameControl (env : Env) (s : State) (reply : DecoderReply) :
    sameControl s (decodeStep env s reply).state := by
  unfold decodeStep
  split
  · exact syncDecode_sameControl env s
  · exact asyncDecode_sameControl env s reply

theorem initial_waitingForData (now : Nat) : waitingForData (initial now) := by
  simp [waitingForData, initial, startLoading, constructed]

theorem loadChunk_waitingForData (env : Env) (s : State) (reply : DecoderReply)
    (ht : s.timerActive = true) : waitingForData (loadChunk env s reply).1 := by
  cases hs : s.mSuspended
  · obtain ⟨-, c2, -, -, -⟩ := decodeStep_sameControl env s reply
    rcases loadChunk_state env s reply hs with ⟨u, e⟩ | ⟨e, h1, h2⟩ | e <;> rw [e]
    · simp [waitingForData]
    · intro _ _ _
      exact ⟨by simp [h1], by simpa using h2⟩
    · intro _ _ h3
      rw [c2, ht] at h3
      cases h3
  · rw [loadChunk_suspended env s reply hs]
    simp [waitingForData, hs]

theorem step_waitingForData (env : Env) (s : State) (e : Event) (h : waitingForData s) :
    waitingForData (step env s e).1 := by
  cases e with
  | elapse ms => simpa [step, waitingForData] using h
  | data c =>
    simp only [step, slotDataReceived]
    split_ifs <;> first | exact h | simp_all [waitingForData]
  | result err =>
    simp only [step, slotResult]
    split_ifs <;> first | exact h | simp [waitingForData]
  | tick reply =>
    simp only [step]
    split_ifs with ha
    · exact loadChunk_waitingForData env s reply ha.2
    · exact h
  | suspend =>
    simp only [step, suspendLoading]
    split_ifs <;> first | exact h | simp [waitingForData]
  | resume =>
    simp only [step, resumeLoading]
    split_ifs <;> first | exact h | simp_all [waitingForData]

theorem run_waitingForData (env : Env) (es : List Event) (s : State) (h : waitingForData s) :
    waitingForData (run env s es).1 := by
  induction es generalizing s with
  | nil => exact h
  | cons e es ih => exact ih _ (step_waitingForData env s e h)

theorem chunkSize_eq_zero (s : State) (h : s.mReadSize = s.mRawData.length) :
    chunkSize s = 0 := by
  simp [chunkSize, h]

theorem feedDecoder_idle (s : State) (reply : DecoderReply) (h : chunkSize s = 0) :
    feedDecoder s reply = (s, [], 0) := by
  simp [feedDecoder, h]

/-- C2: evaluation of the code on the fully-loaded-but-no-result case. In a
live, unsuspended, incremental-mode state whose read cursor equals the buffer
length, whose source has finished and whose decoder holds no image, a tick
changes nothing and logs nothing: the timer that fired is still active, so
the same tick fires again without any external event. -/
theorem C2_tick_leaves_timer_running (env : Env) (s : State) (reply : DecoderReply)
    (ha : s.alive = true) (ht : s.timerActive = true) (hs : s.mSuspended = false)
    (hm : s.mSyncDecode = false) (hr : s.mReadSize = s.mRawData.length)
    (hj : s.jobAlive = false) (hi : s.decoderImage = none) :
    step env s (.tick reply) = (s, []) ∧ (step env s (.tick reply)).1.timerActive = true := by
  have h0 := chunkSize_eq_zero s hr
  have e : step env s (.tick reply) = (s, []) := by
    simp [step, ha, ht, loadChunk, hs, decodeStep, hm, asyncDecode, feedDecoder_idle s reply h0,
      hj, hi]
  exact ⟨e, by rw [e]; exact ht⟩

theorem C2_tick_leaves_timer_running_witness :
    (run sampleEnv (initial 0) [.result 0]).1.mReadSize = 0 ∧
    (run sampleEnv (initial 0) [.result 0]).1.mRawData = [] ∧
    run sampleEnv (initial 0) [.result 0, .tick ⟨[], 0⟩, .tick ⟨[], 0⟩] =
      run sampleEnv (initial 0) [.result 0] ∧
    (step sampleEnv (run sampleEnv (initial 0) [.result 0]).1 (.tick ⟨[], 0⟩)).1.timerActive
      = true :=
  ⟨by decide, by decide, by decide,
    (C2_tick_leaves_timer_running sampleEnv (run sampleEnv (initial 0) [.result 0]).1 ⟨[], 0⟩
      (by decide) (by decide) (by decide) (by decide) (by decide) (by decide) (by decide)).2⟩

/-- C3, as stated, fails: after a suspend request a data arrival restarts
the tick timer, and a second suspend request on that suspended state stops it
again, so the state is not left unchanged. -/
theorem C3_suspend_changes_suspended_state :
    (run sampleEnv (initial 0) [.suspend, .data [1]]).1.mSuspended = true ∧
    (run sampleEnv (initial 0) [.suspend, .data [1]]).1.alive = true ∧
    (run sampleEnv (initial 0) [.suspend, .data [1]]).1.timerActive = true ∧
    (suspendLoading (run sampleEnv (initial 0) [.suspend, .data [1]]).1).timerActive = false ∧
    suspendLoading (run sampleEnv (initial 0) [.suspend, .data [1]]).1 ≠
      (run sampleEnv (initial 0) [.suspend, .data [1]]).1 := by
  decide

/-- C3, amended: in every live state reached from session start, a resume
request on an unsuspended state leaves the whole state unchanged and logs
nothing; a suspend request on a suspended state logs nothing and leaves every
field unchanged except that the tick timer is stopped afterwards. -/
theorem C3_requests_in_own_mode (env : Env) (now : Nat) (es : List Event)
    (ha : (run env (initial now) es).1.alive = true) :
    ((run env (initial now) es).1.mSuspended = false →
      resumeLoading (run env (initial now) es).1 = (run env (initial now) es).1 ∧
      step env (run env (initial now) es).1 .resume = ((run env (initial now) es).1, [])) ∧
    ((run env (initial now) es).1.mSuspended = true →
      suspendLoading (run env (initial now) es).1 =
        { (run env (initial now) es).1 with timerActive := false } ∧
      step env (run env (initial now) es).1 .suspend =
        ({ (run env (initial now) es).1 with timerActive := false }, [])) := by
  have hw := run_waitingForData env es (initial now) (initial_waitingForData now)
  generalize (run env (initial now) es).1 = s at ha hw
  constructor
  · intro hs
    have e : resumeLoading s = s := by
      cases ht : s.timerActive
      · obtain ⟨h1, h2⟩ := hw ha hs ht
        cases s
        simp_all [resumeLoading]
      · cases s
        simp_all [resumeLoading]
    exact ⟨e, by simp [step, ha, e]⟩
  · intro hs
    have e : suspendLoading s = { s with timerActive := false } := by
      cases s
      simp_all [suspendLoading]
    exact ⟨e, by simp [step, ha, e]⟩

theorem C3_requests_in_own_mode_witness :
    (run sampleEnv (initial 0) [.data [1, 2, 3], .tick ⟨[], 3⟩, .tick ⟨[], 0⟩]).1.alive = true ∧
    (run sampleEnv (initial 0) [.data [1, 2, 3], .tick ⟨[], 3⟩, .tick ⟨[], 0⟩]).1.mSuspended
      = false ∧
    (run sampleEnv (initial 0) [.data [1, 2, 3], .tick ⟨[], 3⟩, .tick ⟨[], 0⟩]).1.timerActive
      = false ∧
    resumeLoading (run sampleEnv (initial 0) [.data [1, 2, 3], .tick ⟨[], 3⟩, .tick ⟨[], 0⟩]).1 =
      (run sampleEnv (initial 0) [.data [1, 2, 3], .tick ⟨[], 3⟩, .tick ⟨[], 0⟩]).1 :=
  ⟨by decide, by decide, by decide,
    ((C3_requests_in_own_mode sampleEnv 0 [.data [1, 2, 3], .tick ⟨[], 3⟩, .tick ⟨[], 0⟩]
      (by decide)).1 (by decide)).1⟩

/-! ## Suspend and resume (C4) -/

theorem asyncDecode_log_head (env : Env) (s : State) (reply : DecoderReply)
    (h : 0 < chunkSize s) :
    ∃ rest, (asyncDecode env s reply).log = s.emit .asyncDecode (.decode (chunk s)) :: rest := by
  have e : (feedDecoder s reply).2.1 =
      s.emit .asyncDecode (.decode (chunk s)) :: (consumerCalls s reply.calls).2 := by
    simp [feedDecoder, h]
  unfold asyncDecode
  simp only
  split_ifs
  · exact ⟨_, e⟩
  · exact ⟨_, e⟩
  · exact ⟨_, by rw [e]; exact List.cons_append _ _ _⟩
  · exact ⟨_, e⟩

theorem loadChunk_log_prefix (env : Env) (s : State) (reply : DecoderReply)
    (h : s.mSuspended = false) :
    ∃ rest, (loadChunk env s reply).2 = (decodeStep env s reply).log ++ rest := by
  unfold loadChunk
  simp only [h, Bool.false_eq_true, if_false]
  generalize decodeStep env s reply = d
  cases d.ok
  · exact ⟨_, rfl⟩
  · simp only [Bool.not_true, Bool.false_eq_true, if_false]
    cases d.image with
    | none =>
      simp only
      split_ifs <;> exact ⟨[], (List.append_nil _).symm⟩
    | some image => exact ⟨_, rfl⟩

theorem run_ticks_stopped (env : Env) (replies : List DecoderReply) (s : State)
    (h : s.timerActive = false) :
    run env s (replies.map .tick) = (s, []) := by
  induction replies with
  | nil => rfl
  | cons r rs ih => simp [run, step, h, ih]

theorem run_append (env : Env) (es fs : List Event) (s : State) :
    run env s (es ++ fs) =
      ((run env (run env s es).1 fs).1, (run env s es).2 ++ (run env (run env s es).1 fs).2) := by
  induction es generalizing s with
  | nil => simp [run]
  | cons e es ih => simp [run, ih, List.append_assoc]

theorem run_dead (env : Env) (es : List Event) (s : State) (h : s.alive = false) :
    (run env s es).2 = [] ∧ { (run env s es).1 with now := s.now } = s := by
  induction es generalizing s with
  | nil => exact ⟨rfl, rfl⟩
  | cons e es ih =>
    cases e with
    | elapse ms =>
      have := ih { s with now := s.now + ms } h
      simp only [run, step, List.nil_append]
      exact ⟨this.1, by simpa using congrArg (fun t => { t with now := s.now }) this.2⟩
    | data c => simpa [run, step, h] using ih s h
    | result err => simpa [run, step, h] using ih s h
    | tick reply => simpa [run, step, h] using ih s h
    | suspend => simpa [run, step, h] using ih s h
    | resume => simpa [run, step, h] using ih s h

theorem roundTrip_eq (env : Env) (s : State) (replies : List DecoderReply) :
    roundTrip env s replies =
      (if s.alive then resumeLoading (suspendLoading s) else s, []) := by
  unfold roundTrip
  cases ha : s.alive
  · have h := run_ticks_stopped env replies
    simp only [run, step, ha, Bool.false_eq_true, if_false, List.nil_append]
    rw [run_append]
    have e : ∀ rs : List DecoderReply, run env s (rs.map .tick) = (s, []) := by
      intro rs
      induction rs with
      | nil => rfl
      | cons r rs ih => simp [run, step, ha, ih]
    simp [e, run, step, ha]
  · simp only [run, step, ha, if_true, List.nil_append]
    rw [run_append, run_ticks_stopped env replies (suspendLoading s) (by simp [suspendLoading])]
    have : (suspendLoading s).alive = true := by simpa [suspendLoading] using ha
    simp [run, step, this]

theorem roundTrip_fields (s : State) :
    (resumeLoading (suspendLoading s)).mRawData = s.mRawData ∧
    (resumeLoading (suspendLoading s)).mReadSize = s.mReadSize ∧
    (resumeLoading (suspendLoading s)).mSyncDecode = s.mSyncDecode ∧
    (resumeLoading (suspendLoading s)).now = s.now ∧
    (resumeLoading (suspendLoading s)).mSuspended = false := by
  unfold resumeLoading suspendLoading
  simp only
  split_ifs <;> simp

/-- C4: a suspend request, any number of ticks and a resume request leave the
raw buffer, the read cursor and the decode mode as they were and log nothing
(no byte reaches the decoder, nothing is emitted); and if the first tick after
the resume reaches the decoder, it is handed the slice of the raw buffer that
starts at that read cursor. -/
theorem C4_suspend_resume_round_trip (env : Env) (s : State) (replies : List DecoderReply) :
    (roundTrip env s replies).2 = [] ∧
    (roundTrip env s replies).1.mRawData = s.mRawData ∧
    (roundTrip env s replies).1.mReadSize = s.mReadSize ∧
    (roundTrip env s replies).1.mSyncDecode = s.mSyncDecode ∧
    (∀ reply, decoderAsked (roundTrip env s replies).1 →
      ∃ rest, (step env (roundTrip env s replies).1 (.tick reply)).2 =
        ⟨s.now, .asyncDecode, .decode ((s.mRawData.drop s.mReadSize).take (chunkSize s))⟩
          :: rest) := by
  rw [roundTrip_eq]
  cases ha : s.alive
  · simp [decoderAsked, ha]
  · obtain ⟨f1, f2, f3, f4, f5⟩ := roundTrip_fields s
    simp only [if_true]
    refine ⟨trivial, f1, f2, f3, ?_⟩
    intro reply hask
    obtain ⟨h1, h2, h3, h4, h5⟩ := hask
    generalize resumeLoading (suspendLoading s) = t at *
    have hc : chunkSize t = chunkSize s := by simp [chunkSize, f1, f2]
    have hk : chunk t = (s.mRawData.drop s.mReadSize).take (chunkSize s) := by
      simp [chunk, hc, f1, f2]
    obtain ⟨rest1, e1⟩ := loadChunk_log_prefix env t reply f5
    obtain ⟨rest2, e2⟩ := asyncDecode_log_head env t reply h5
    have hm : t.mSyncDecode = false := by simpa using h4
    refine ⟨rest2 ++ rest1, ?_⟩
    simp only [step, h1, h2, and_self, if_true]
    rw [e1]
    simp only [decodeStep, hm, Bool.false_eq_true, if_false]
    rw [e2, ← hk, ← f4]
    rfl

theorem C4_suspend_resume_round_trip_witness :
    decoderAsked (roundTrip sampleEnv (run sampleEnv (initial 0)
      [.data [5, 6, 7], .tick ⟨[], 1⟩]).1 [⟨[], 1⟩, ⟨[], 1⟩]).1 ∧
    ∃ rest, (step sampleEnv (roundTrip sampleEnv (run sampleEnv (initial 0)
      [.data [5, 6, 7], .tick ⟨[], 1⟩]).1 [⟨[], 1⟩, ⟨[], 1⟩]).1 (.tick ⟨[], 2⟩)).2 =
        ⟨0, .asyncDecode, .decode [6, 7]⟩ :: rest :=
  ⟨by decide,
    (C4_suspend_resume_round_trip sampleEnv (run sampleEnv (initial 0)
      [.data [5, 6, 7], .tick ⟨[], 1⟩]).1 [⟨[], 1⟩, ⟨[], 1⟩]).2.2.2.2 ⟨[], 2⟩ (by decide)⟩

/-! ## The log of a live session and the failed fallback (C5) -/

theorem syncDecode_waiting (env : Env) (s : State) (hj : s.jobAlive = true) :
    syncDecode env s = ⟨s, [], true, none⟩ := by
  simp [syncDecode, hj]

theorem syncDecode_finished (env : Env) (s : State) (hj : s.jobAlive = false) :
    syncDecode env s =
      ⟨{ s with mUpdatedDuringLoad := false, mReadSize := s.mRawData.length },
        [⟨s.now, .syncDecode, .loadFromData s.mRawData⟩],
        (env.loadFromData s.mRawData).isSome, env.loadFromData s.mRawData⟩ := by
  unfold syncDecode
  cases hl : env.loadFromData s.mRawData <;> simp [hj, hl, State.emit]

theorem loadChunk_cases (env : Env) (s : State) (reply : DecoderReply)
    (h : s.mSuspended = false) :
    ((decodeStep env s reply).ok = false ∧
      loadChunk env s reply =
        ({ (decodeStep env s reply).state with timerActive := false, alive := false },
          (decodeStep env s reply).log ++
            [⟨(decodeStep env s reply).state.now, .loadChunk, .finished false⟩,
             ⟨(decodeStep env s reply).state.now, .loadChunk, .switchToImpl .empty⟩])) ∨
    ((decodeStep env s reply).ok = true ∧ (decodeStep env s reply).image = none ∧
      (loadChunk env s reply).1.alive = (decodeStep env s reply).state.alive ∧
      (loadChunk env s reply).2 = (decodeStep env s reply).log) ∨
    ((decodeStep env s reply).ok = true ∧ ∃ image, (decodeStep env s reply).image = some image ∧
      loadChunk env s reply =
        ((loadingSucceeded env (decodeStep env s reply).state image).1,
          (decodeStep env s reply).log ++
            (loadingSucceeded env (decodeStep env s reply).state image).2)) := by
  unfold loadChunk
  simp only [h, Bool.false_eq_true, if_false]
  generalize decodeStep env s reply = d
  cases hok : d.ok
  · left
    simp [State.emit]
  · simp only [Bool.not_true, Bool.false_eq_true, if_false]
    cases hi : d.image with
    | none =>
      right; left
      simp only
      split_ifs <;> simp
    | some image =>
      right; right
      exact ⟨trivial, image, rfl, rfl⟩

theorem changed_streaming (s : State) (r : QRect) :
    ∀ x ∈ (changed s r).2, x.act.streaming = true := by
  unfold changed
  intro x hx
  by_cases h1 : s.mUpdatedDuringLoad = true <;> simp only [h1] at hx <;>
    split_ifs at hx <;> simp [State.emit] at hx <;>
    rcases hx with rfl | rfl <;> rfl

theorem end_streaming (s : State) : ∀ x ∈ (end_ s).2, x.act.streaming = true := by
  unfold end_
  intro x hx
  split_ifs at hx <;> simp [State.emit] at hx
  subst hx; rfl

theorem consumerCall_streaming (s : State) (c : ConsumerCall) :
    ∀ x ∈ (consumerCall s c).2, x.act.streaming = true := by
  cases c with
  | changed r => exact changed_streaming s r
  | end_ => exact end_streaming s
  | setSize w h =>
    intro x hx
    simp [consumerCall, setSize, State.emit] at hx
    rcases hx with rfl | rfl <;> rfl
  | frameDone => simp [consumerCall]
  | setLooping => simp [consumerCall]
  | setFramePeriod => simp [consumerCall]
  | elapse ms => simp [consumerCall]
  | image img => simp [consumerCall]

theorem consumerCalls_streaming (cs : List ConsumerCall) (s : State) :
    ∀ x ∈ (consumerCalls s cs).2, x.act.streaming = true := by
  induction cs generalizing s with
  | nil => simp [consumerCalls]
  | cons c cs ih =>
    intro x hx
    simp only [consumerCalls, List.mem_append] at hx
    rcases hx with hx | hx
    · exact consumerCall_streaming s c x hx
    · exact ih _ x hx

theorem feedDecoder_streaming (s : State) (reply : DecoderReply) :
    ∀ x ∈ (feedDecoder s reply).2.1, x.act.streaming = true := by
  unfold feedDecoder
  intro x hx
  split_ifs at hx
  · simp only [List.mem_cons] at hx
    rcases hx with rfl | hx
    · rfl
    · exact consumerCalls_streaming reply.calls s x hx
  · simp at hx

/-- While the decode step neither fails nor yields an image, it logs only
streaming entries. -/
theorem decodeStep_streaming (env : Env) (s : State) (reply : DecoderReply)
    (hok : (decodeStep env s reply).ok = true) (hi : (decodeStep env s reply).image = none) :
    ∀ x ∈ (decodeStep env s reply).log, x.act.streaming = true := by
  have hsync : ∀ t : State, (syncDecode env t).ok = true → (syncDecode env t).image = none →
      (syncDecode env t).log = [] := by
    intro t h1 h2
    cases hj : t.jobAlive
    · rw [syncDecode_finished env t hj] at h1 h2
      simp only at h1 h2
      rw [h2] at h1
      cases h1
    · rw [syncDecode_waiting env t hj]
  have hf := feedDecoder_streaming s reply
  unfold decodeStep at hok hi ⊢
  split_ifs at hok hi ⊢
  · rw [hsync s hok hi]; simp
  · unfold asyncDecode at hok hi ⊢
    simp only at hok hi ⊢
    split_ifs at hok hi ⊢
    · exact hf
    · exact hf
    · simp only at hok hi ⊢
      rw [hsync _ hok hi, List.append_nil]; exact hf
    · exact hf

theorem loadingSucceeded_dead (env : Env) (s : State) (image : QImage) :
    (loadingSucceeded env s image).1.alive = false := by
  obtain ⟨u, e⟩ := loadingSucceeded_state env s image
  rw [e]

theorem loadChunk_alive_streaming (env : Env) (s : State) (reply : DecoderReply)
    (h : (loadChunk env s reply).1.alive = true) :
    ∀ x ∈ (loadChunk env s reply).2, x.act.streaming = true := by
  cases hs : s.mSuspended
  · rcases loadChunk_cases env s reply hs with ⟨-, e⟩ | ⟨h1, h2, -, e⟩ | ⟨-, image, -, e⟩
    · rw [e] at h; cases h
    · rw [e]; exact decodeStep_streaming env s reply h1 h2
    · rw [e] at h
      simp only [loadingSucceeded_dead] at h
      cases h
  · rw [loadChunk_suspended env s reply hs]; simp

theorem step_alive_streaming (env : Env) (s : State) (e : Event)
    (h : (step env s e).1.alive = true) :
    ∀ x ∈ (step env s e).2, x.act.streaming = true := by
  cases e with
  | elapse ms => simp [step]
  | data c => simp only [step]; split_ifs <;> simp
  | result err =>
    simp only [step, slotResult] at h ⊢
    split_ifs at h ⊢ <;> simp at h ⊢
  | tick reply =>
    simp only [step] at h ⊢
    split_ifs at h ⊢
    · exact loadChunk_alive_streaming env s reply h
    · simp
  | suspend => simp only [step]; split_ifs <;> simp
  | resume => simp only [step]; split_ifs <;> simp

theorem step_dead (env : Env) (s : State) (e : Event) (h : s.alive = false) :
    (step env s e).1.alive = false := by
  cases e <;> simp [step, h]

theorem run_alive_of_alive (env : Env) (es : List Event) (s : State)
    (h : (run env s es).1.alive = true) : s.alive = true := by
  induction es generalizing s with
  | nil => exact h
  | cons e es ih =>
    have h1 := ih _ h
    cases ha : s.alive
    · rw [step_dead env s e ha] at h1; cases h1
    · rfl

/-- While the object lives, its log holds only streaming entries. -/
theorem run_alive_streaming (env : Env) (es : List Event) (s : State)
    (h : (run env s es).1.alive = true) :
    ∀ x ∈ (run env s es).2, x.act.streaming = true := by
  induction es generalizing s with
  | nil => simp [run]
  | cons e es ih =>
    intro x hx
    simp only [run, List.mem_append] at hx h
    rcases hx with hx | hx
    · exact step_alive_streaming env s e (run_alive_of_alive env es _ h) x hx
    · exact ih _ h x hx

theorem countAct_append (p : Action → Bool) (l1 l2 : List Emission) :
    countAct p (l1 ++ l2) = countAct p l1 + countAct p l2 := by
  simp [countAct, List.filter_append]

theorem countAct_streaming (p : Action → Bool) (log : List Emission)
    (hp : ∀ a, a.streaming = true → p a = false)
    (h : ∀ x ∈ log, x.act.streaming = true) : countAct p log = 0 := by
  unfold countAct
  rw [List.length_eq_zero, List.filter_eq_nil_iff]
  intro x hx
  simp [hp x.act (h x hx)]

theorem isFinished_streaming (ok : Bool) (a : Action) (h : a.streaming = true) :
    a.isFinished ok = false := by
  cases a <;> simp_all [Action.streaming, Action.isFinished]

theorem isHandOff_streaming (a : Action) (h : a.streaming = true) : a.isHandOff = false := by
  cases a <;> simp_all [Action.streaming, Action.isHandOff]

theorem isLoadFromData_streaming (a : Action) (h : a.streaming = true) :
    a.isLoadFromData = false := by
  cases a <;> simp_all [Action.streaming, Action.isLoadFromData]

theorem isLoadFromDataOf_streaming (raw : List Byte) (a : Action) (h : a.streaming = true) :
    a.isLoadFromDataOf raw = false := by
  cases a <;> simp_all [Action.streaming, Action.isLoadFromDataOf]

theorem syncDecode_failed (env : Env) (s t : State) (hj : t.jobAlive = false)
    (hraw : t.mRawData = s.mRawData) (hfail : env.loadFromData s.mRawData = none) :
    (syncDecode env t).ok = false ∧
    (syncDecode env t).state.mSyncDecode = t.mSyncDecode ∧
    (syncDecode env t).log =
      [⟨(syncDecode env t).state.now, .syncDecode, .loadFromData s.mRawData⟩] := by
  rw [syncDecode_finished env t hj, hraw, hfail]
  exact ⟨rfl, rfl, rfl⟩

/-- Decode step once the source has finished and the decoder has rejected the
stream, now or earlier, when the whole-buffer decode fails. -/
theorem decodeStep_rejected (env : Env) (s : State) (reply : DecoderReply)
    (hj : s.jobAlive = false)
    (hrej : s.mSyncDecode = true ∨ (0 < chunkSize s ∧ reply.consumed < 0))
    (hfail : env.loadFromData s.mRawData = none) :
    (decodeStep env s reply).ok = false ∧
    (decodeStep env s reply).state.mSyncDecode = true ∧
    ∃ mid, (∀ x ∈ mid, x.act.streaming = true) ∧
      (decodeStep env s reply).log =
        mid ++ [⟨(decodeStep env s reply).state.now, .syncDecode, .loadFromData s.mRawData⟩] := by
  cases hm : s.mSyncDecode
  · rcases hrej with h | ⟨hpos, hneg⟩
    · rw [hm] at h; cases h
    · obtain ⟨f1, -, -, f4, -⟩ := feedDecoder_sameScheduler s reply
      have hn : (feedDecoder s reply).2.2 = reply.consumed := by
        simp [feedDecoder, hpos]
      have hj1 : (feedDecoder s reply).1.jobAlive = false := by rw [f4, hj]
      obtain ⟨e1, e2, e3⟩ := syncDecode_failed env s
        { (feedDecoder s reply).1 with mSyncDecode := true } hj1 f1 hfail
      have h1 : ¬ (feedDecoder s reply).2.2 > 0 := by omega
      have h2 : ¬ ((feedDecoder s reply).2.2 = 0 ∧ (feedDecoder s reply).1.jobAlive = true) := by
        omega
      have h3 : (feedDecoder s reply).2.2 < 0 := by omega
      have ea : decodeStep env s reply =
          ⟨(syncDecode env { (feedDecoder s reply).1 with mSyncDecode := true }).state,
            (feedDecoder s reply).2.1 ++
              (syncDecode env { (feedDecoder s reply).1 with mSyncDecode := true }).log,
            (syncDecode env { (feedDecoder s reply).1 with mSyncDecode := true }).ok,
            (syncDecode env { (feedDecoder s reply).1 with mSyncDecode := true }).image⟩ := by
        simp only [decodeStep, hm, Bool.false_eq_true, if_false, asyncDecode, h1, h2, h3, if_true]
      rw [ea]
      exact ⟨e1, e2, _, feedDecoder_streaming s reply, by rw [e3]⟩
  · obtain ⟨e1, e2, e3⟩ := syncDecode_failed env s s hj rfl hfail
    simp only [decodeStep, hm, if_true]
    exact ⟨e1, e2.trans hm, [], by simp, by rw [e3]; rfl⟩

theorem loadChunk_rejected (env : Env) (s : State) (reply : DecoderReply)
    (hs : s.mSuspended = false) (hj : s.jobAlive = false)
    (hrej : s.mSyncDecode = true ∨ (0 < chunkSize s ∧ reply.consumed < 0))
    (hfail : env.loadFromData s.mRawData = none) :
    (loadChunk env s reply).1.mSyncDecode = true ∧
    (loadChunk env s reply).1.timerActive = false ∧
    (loadChunk env s reply).1.alive = false ∧
    ∃ mid n, (∀ x ∈ mid, x.act.streaming = true) ∧
      (loadChunk env s reply).2 =
        mid ++ [⟨n, .syncDecode, .loadFromData s.mRawData⟩, ⟨n, .loadChunk, .finished false⟩,
          ⟨n, .loadChunk, .switchToImpl .empty⟩] := by
  obtain ⟨hok, hm, mid, hmid, hlog⟩ := decodeStep_rejected env s reply hj hrej hfail
  rcases loadChunk_cases env s reply hs with ⟨-, e⟩ | ⟨h1, -⟩ | ⟨h1, -⟩
  · rw [e, hlog]
    exact ⟨hm, rfl, rfl, mid, (decodeStep env s reply).state.now, hmid, by simp⟩
  · rw [hok] at h1; cases h1
  · rw [hok] at h1; cases h1

/-- C5: take any session in which the source has finished successfully (the
object lives and the job is gone) and the incremental decoder has rejected
the stream, on an earlier tick or on this one, and let the scheduler not be
suspended. The tick then leaves the scheduler in whole-buffer mode and, when
the whole-buffer decode of the raw buffer fails, stops the timer and ends the
session. Over the whole session, whatever events follow, there is exactly one
whole-buffer decode and it is over the entire raw buffer, exactly one
finished(false), no finished(true) and no hand-off of a loaded document. -/
theorem C5_failed_fallback_ends_session (env : Env) (now : Nat) (es later : List Event)
    (reply : DecoderReply)
    (ha : (run env (initial now) es).1.alive = true)
    (hs : (run env (initial now) es).1.mSuspended = false)
    (hj : (run env (initial now) es).1.jobAlive = false)
    (hrej : (run env (initial now) es).1.mSyncDecode = true ∨
      (0 < chunkSize (run env (initial now) es).1 ∧ reply.consumed < 0))
    (hfail : env.loadFromData (run env (initial now) es).1.mRawData = none) :
    (run env (initial now) (es ++ .tick reply :: later)).1.mSyncDecode = true ∧
    (run env (initial now) (es ++ .tick reply :: later)).1.timerActive = false ∧
    (run env (initial now) (es ++ .tick reply :: later)).1.alive = false ∧
    countAct Action.isLoadFromData (run env (initial now) (es ++ .tick reply :: later)).2 = 1 ∧
    countAct (Action.isLoadFromDataOf (run env (initial now) es).1.mRawData)
      (run env (initial now) (es ++ .tick reply :: later)).2 = 1 ∧
    countAct (Action.isFinished false) (run env (initial now) (es ++ .tick reply :: later)).2 = 1 ∧
    countAct (Action.isFinished true) (run env (initial now) (es ++ .tick reply :: later)).2 = 0 ∧
    countAct Action.isHandOff (run env (initial now) (es ++ .tick reply :: later)).2 = 0 := by
  have hpre := run_alive_streaming env es (initial now) ha
  have hw := run_waitingForData env es (initial now) (initial_waitingForData now)
  rw [run_append]
  generalize (run env (initial now) es).2 = pre at hpre
  generalize (run env (initial now) es).1 = s at ha hs hj hrej hfail hw
  have ht : s.timerActive = true := by
    cases h : s.timerActive
    · have := (hw ha hs h).2
      rw [hj] at this
      cases this
    · rfl
  obtain ⟨c1, c2, c3, mid, n, hmid, hlog⟩ := loadChunk_rejected env s reply hs hj hrej hfail
  have hstep : step env s (.tick reply) = loadChunk env s reply := by
    simp [step, ha, ht]
  obtain ⟨d1, d2⟩ := run_dead env later (loadChunk env s reply).1 c3
  have g1 : (run env (loadChunk env s reply).1 later).1.mSyncDecode = true := by
    have := congrArg State.mSyncDecode d2
    exact (by simpa using this : _ = _).trans c1
  have g2 : (run env (loadChunk env s reply).1 later).1.timerActive = false := by
    have := congrArg State.timerActive d2
    exact (by simpa using this : _ = _).trans c2
  have g3 : (run env (loadChunk env s reply).1 later).1.alive = false := by
    have := congrArg State.alive d2
    exact (by simpa using this : _ = _).trans c3
  have hfin : (run env s (.tick reply :: later)).1 = (run env (loadChunk env s reply).1 later).1 := by
    simp only [run, hstep]
  have hlog2 : (run env s (.tick reply :: later)).2 =
      mid ++ [⟨n, .syncDecode, .loadFromData s.mRawData⟩, ⟨n, .loadChunk, .finished false⟩,
        ⟨n, .loadChunk, .switchToImpl .empty⟩] := by
    simp only [run, hstep, d1, List.append_nil, hlog]
  simp only [hfin, hlog2, countAct_append]
  refine ⟨g1, g2, g3, ?_, ?_, ?_, ?_, ?_⟩
  · rw [countAct_streaming _ pre isLoadFromData_streaming hpre,
      countAct_streaming _ mid isLoadFromData_streaming hmid]
    rfl
  · rw [countAct_streaming _ pre (isLoadFromDataOf_streaming _) hpre,
      countAct_streaming _ mid (isLoadFromDataOf_streaming _) hmid]
    simp [countAct, Action.isLoadFromDataOf, Action.isFinished]
  · rw [countAct_streaming _ pre (isFinished_streaming _) hpre,
      countAct_streaming _ mid (isFinished_streaming _) hmid]
    rfl
  · rw [countAct_streaming _ pre (isFinished_streaming _) hpre,
      countAct_streaming _ mid (isFinished_streaming _) hmid]
    rfl
  · rw [countAct_streaming _ pre isHandOff_streaming hpre,
      countAct_streaming _ mid isHandOff_streaming hmid]
    rfl

theorem C5_failed_fallback_ends_session_witness :
    (run sampleEnv (initial 0) [.data [1, 2, 3], .result 0]).1.jobAlive = false ∧
    (0 < chunkSize (run sampleEnv (initial 0) [.data [1, 2, 3], .result 0]).1 ∧ (-1 : Int) < 0) ∧
    countAct (Action.isFinished false)
      (run sampleEnv (initial 0)
        ([.data [1, 2, 3], .result 0] ++ .tick ⟨[], -1⟩ :: [.resume, .tick ⟨[], 0⟩])).2 = 1 :=
  ⟨by decide, by decide,
    (C5_failed_fallback_ends_session sampleEnv 0 [.data [1, 2, 3], .result 0]
      [.resume, .tick ⟨[], 0⟩] ⟨[], -1⟩ (by decide) (by decide) (by decide)
      (Or.inr (by decide)) (by decide)).2.2.2.2.2.1⟩

/-! ## Coalescing of region updates (C6, C10) -/

/-- C6, as stated, fails on `alphaSession`: `changed`, `end` and the completion
step of `loadChunk` each emit rectUpdated at the same instant, so two
emissions closer than the threshold remain whichever one is taken to be the
final flush. -/
theorem C6_three_emissions_at_once :
    rectTimes (run sampleEnv (initial 0) alphaSession).2 = [101, 101, 101] ∧
    rectSites (run sampleEnv (initial 0) alphaSession).2 = [.changed, .end_, .loadChunk] ∧
    coalescingBound (rectTimes (run sampleEnv (initial 0) alphaSession).2) = false ∧
    ¬ spacedFrom 0 ((rectTimes (run sampleEnv (initial 0) alphaSession).2).eraseIdx 0) ∧
    ¬ spacedFrom 0 ((rectTimes (run sampleEnv (initial 0) alphaSession).2).eraseIdx 1) ∧
    ¬ spacedFrom 0 ((rectTimes (run sampleEnv (initial 0) alphaSession).2).eraseIdx 2) := by
  decide

theorem spacedFrom_append (t0 : Nat) (l1 l2 : List Nat) (h1 : spacedFrom t0 l1)
    (h2 : spacedFrom (l1.getLastD t0) l2) : spacedFrom t0 (l1 ++ l2) := by
  induction l1 generalizing t0 with
  | nil => simpa using h2
  | cons a l ih =>
    obtain ⟨h3, h4⟩ := h1
    refine ⟨h3, ih a h4 ?_⟩
    cases l with
    | nil => simpa using h2
    | cons b l => simpa [List.getLastD] using h2

theorem changedTimes_append (l1 l2 : List Emission) :
    changedTimes (l1 ++ l2) = changedTimes l1 ++ changedTimes l2 := by
  simp [changedTimes]

theorem getLastD_append (t0 : Nat) (l1 l2 : List Nat) :
    (l1 ++ l2).getLastD t0 = l2.getLastD (l1.getLastD t0) := by
  cases l2 with
  | nil => simp
  | cons b l2 =>
    cases l1 with
    | nil => simp
    | cons a l1 => simp [List.getLastD, List.getLast_append]

/-- Sequential composition keeps the emissions of `changed` coalesced. -/
theorem coalesced_seq {s : State} {r1 r2 : State × List Emission}
    (h1 : Coalesced s r1) (h2 : Coalesced r1.1 r2) : Coalesced s (r2.1, r1.2 ++ r2.2) := by
  obtain ⟨a1, a2⟩ := h1
  obtain ⟨b1, b2⟩ := h2
  simp only [Coalesced, changedTimes_append, getLastD_append]
  rw [a2] at b1 b2
  exact ⟨spacedFrom_append _ _ _ a1 b1, b2⟩

/-- A step that keeps the clock start and logs nothing from `changed`. -/
theorem coalesced_quiet {s : State} {r : State × List Emission}
    (h1 : r.1.clockStart = s.clockStart) (h2 : changedTimes r.2 = []) : Coalesced s r := by
  simp [Coalesced, h1, h2, spacedFrom]

/-- Appending entries not from `changed`, keeping the clock start. -/
theorem coalesced_append_quiet {s t u : State} {l1 l2 : List Emission}
    (h : Coalesced s (t, l1)) (h1 : u.clockStart = t.clockStart) (h2 : changedTimes l2 = []) :
    Coalesced s (u, l1 ++ l2) := by
  obtain ⟨a1, a2⟩ := h
  simp only [Coalesced, changedTimes_append, h2, List.append_nil, h1]
  exact ⟨a1, a2⟩

theorem changed_eq (s : State) (r : QRect) :
    changed s r =
      (if 100 < s.now - s.clockStart then
          { s with mUpdatedDuringLoad := true, mLoadChangedRect := QRect.null,
                   clockStart := s.now }
        else
          { s with mUpdatedDuringLoad := true,
                   mLoadChangedRect := s.mLoadChangedRect.unite r },
        (if s.mUpdatedDuringLoad then [] else [⟨s.now, .changed, .setImage s.decoderImage⟩]) ++
        (if 100 < s.now - s.clockStart then
          [⟨s.now, .changed, .rectUpdated (s.mLoadChangedRect.unite r)⟩] else [])) := by
  cases s with
  | mk u raw rd img ta rect cs ja su sy now al =>
    cases u <;> by_cases h : 100 < now - cs <;> simp [changed, State.elapsed, State.emit, h]

theorem changed_coalesced (s : State) (r : QRect) : Coalesced s (changed s r) := by
  rw [changed_eq]
  unfold Coalesced
  by_cases h : 100 < s.now - s.clockStart <;> cases hu : s.mUpdatedDuringLoad <;>
    simp [h, changedTimes, Action.isRectUpdated, spacedFrom]
  all_goals omega

theorem end_coalesced (s : State) : Coalesced s (end_ s) := by
  apply coalesced_quiet
  · unfold end_; split_ifs <;> rfl
  · unfold end_; split_ifs <;> simp [changedTimes, State.emit]

theorem consumerCall_coalesced (s : State) (c : ConsumerCall) :
    Coalesced s (consumerCall s c) := by
  cases c with
  | changed r => exact changed_coalesced s r
  | end_ => exact end_coalesced s
  | setSize w h => exact coalesced_quiet rfl (by simp [consumerCall, setSize, changedTimes, State.emit])
  | frameDone => exact coalesced_quiet rfl rfl
  | setLooping => exact coalesced_quiet rfl rfl
  | setFramePeriod => exact coalesced_quiet rfl rfl
  | elapse ms => exact coalesced_quiet rfl rfl
  | image img => exact coalesced_quiet rfl rfl

theorem consumerCalls_coalesced (cs : List ConsumerCall) (s : State) :
    Coalesced s (consumerCalls s cs) := by
  induction cs generalizing s with
  | nil => exact coalesced_quiet rfl rfl
  | cons c cs ih => exact coalesced_seq (consumerCall_coalesced s c) (ih _)

theorem feedDecoder_coalesced (s : State) (reply : DecoderReply) :
    Coalesced s ((feedDecoder s reply).1, (feedDecoder s reply).2.1) := by
  unfold feedDecoder
  split_ifs
  · have h := consumerCalls_coalesced reply.calls s
    simpa [Coalesced, changedTimes, State.emit] using h
  · exact coalesced_quiet rfl rfl

theorem syncDecode_quiet (env : Env) (s : State) :
    (syncDecode env s).state.clockStart = s.clockStart ∧
    changedTimes (syncDecode env s).log = [] := by
  cases hj : s.jobAlive
  · rw [syncDecode_finished env s hj]; simp [changedTimes]
  · rw [syncDecode_waiting env s hj]; simp [changedTimes]

theorem asyncDecode_coalesced (env : Env) (s : State) (reply : DecoderReply) :
    Coalesced s ((asyncDecode env s reply).state, (asyncDecode env s reply).log) := by
  have hf := feedDecoder_coalesced s reply
  unfold asyncDecode
  simp only
  split_ifs
  · exact hf
  · exact hf
  · obtain ⟨q1, q2⟩ := syncDecode_quiet env { (feedDecoder s reply).1 with mSyncDecode := true }
    exact coalesced_append_quiet hf q1 q2
  · exact hf

theorem decodeStep_coalesced (env : Env) (s : State) (reply : DecoderReply) :
    Coalesced s ((decodeStep env s reply).state, (decodeStep env s reply).log) := by
  unfold decodeStep
  split_ifs
  · obtain ⟨q1, q2⟩ := syncDecode_quiet env s
    exact coalesced_quiet q1 q2
  · exact asyncDecode_coalesced env s reply

theorem loadingSucceeded_quiet (env : Env) (s : State) (image : QImage) :
    (loadingSucceeded env s image).1.clockStart = s.clockStart ∧
    changedTimes (loadingSucceeded env s image).2 = [] := by
  obtain ⟨u, e⟩ := loadingSucceeded_state env s image
  refine ⟨by rw [e], ?_⟩
  unfold loadingSucceeded switchToLoaded
  simp only [changedTimes_append]
  split_ifs <;> simp [changedTimes, State.emit]

theorem loadChunk_coalesced (env : Env) (s : State) (reply : DecoderReply) :
    Coalesced s (loadChunk env s reply) := by
  cases hs : s.mSuspended
  · have hd := decodeStep_coalesced env s reply
    rcases loadChunk_cases env s reply hs with ⟨-, e⟩ | ⟨-, -, -, e⟩ | ⟨-, image, -, e⟩
    · rw [e]
      exact coalesced_append_quiet hd rfl (by simp [changedTimes])
    · have hc : (loadChunk env s reply).1.clockStart = (decodeStep env s reply).state.clockStart := by
        rcases loadChunk_state env s reply hs with ⟨u, e2⟩ | ⟨e2, -⟩ | e2 <;> rw [e2]
      have := @coalesced_append_quiet s _ (loadChunk env s reply).1 _ [] hd hc rfl
      rw [List.append_nil, ← e] at this
      exact this
    · rw [e]
      obtain ⟨q1, q2⟩ := loadingSucceeded_quiet env (decodeStep env s reply).state image
      exact coalesced_append_quiet hd q1 q2
  · rw [loadChunk_suspended env s reply hs]
    exact coalesced_quiet rfl rfl

theorem step_coalesced (env : Env) (s : State) (e : Event) : Coalesced s (step env s e) := by
  cases e with
  | elapse ms => exact coalesced_quiet rfl rfl
  | data c =>
    simp only [step, slotDataReceived]
    split_ifs <;> exact coalesced_quiet rfl rfl
  | result err =>
    simp only [step, slotResult]
    split_ifs <;> exact coalesced_quiet rfl (by simp [changedTimes, State.emit])
  | tick reply =>
    simp only [step]
    split_ifs
    · exact loadChunk_coalesced env s reply
    · exact coalesced_quiet rfl rfl
  | suspend =>
    simp only [step, suspendLoading]
    split_ifs <;> exact coalesced_quiet rfl rfl
  | resume =>
    simp only [step, resumeLoading]
    split_ifs <;> exact coalesced_quiet rfl rfl

theorem run_coalesced (env : Env) (es : List Event) (s : State) : Coalesced s (run env s es) := by
  induction es generalizing s with
  | nil => exact coalesced_quiet rfl rfl
  | cons e es ih => exact coalesced_seq (step_coalesced env s e) (ih _)

/-- C6, amended: in every session the rectUpdated emissions made by the
callback `changed` are more than 100 ms apart from one another, and the
first comes more than 100 ms after session start. The flush made by `end` and
the full-image emission of the completion step are not subject to the bound. -/
theorem C6_changed_emissions_spaced (env : Env) (now : Nat) (es : List Event) :
    spacedFrom now (changedTimes (run env (initial now) es).2) :=
  (run_coalesced env es (initial now)).1

theorem unite_valid (a b : QRect) (ha : a.isValid = true) (hb : b.isValid = true) :
    a.unite b = ⟨min a.x1 b.x1, min a.y1 b.y1, max a.x2 b.x2, max a.y2 b.y2⟩ := by
  simp [QRect.unite, ha, hb]

theorem unite_left_invalid (a b : QRect) (ha : a.isValid = false) : a.unite b = b := by
  simp [QRect.unite, ha]

theorem unite_right_invalid (a b : QRect) (ha : a.isValid = true) (hb : b.isValid = false) :
    a.unite b = a := by
  simp [QRect.unite, ha, hb]

theorem not_contains_of_invalid (a : QRect) (ha : a.isValid = false) (x y : Int) :
    ¬ a.contains x y := by
  unfold QRect.contains
  simp only [QRect.isValid, Bool.and_eq_false_imp, decide_eq_true_eq, decide_eq_false_iff_not] at ha
  intro h
  by_cases hx : a.x1 ≤ a.x2
  · have := ha hx
    omega
  · omega

/-- The united rectangle covers every point of either operand. -/
theorem unite_contains (a b : QRect) (x y : Int) (h : a.contains x y ∨ b.contains x y) :
    (a.unite b).contains x y := by
  cases ha : a.isValid
  · rw [unite_left_invalid a b ha]
    rcases h with h | h
    · exact absurd h (not_contains_of_invalid a ha x y)
    · exact h
  · cases hb : b.isValid
    · rw [unite_right_invalid a b ha hb]
      rcases h with h | h
      · exact h
      · exact absurd h (not_contains_of_invalid b hb x y)
    · rw [unite_valid a b ha hb]
      unfold QRect.contains at h ⊢
      simp only
      omega

/-- The united rectangle is covered by every rectangle that covers both
operands. -/
theorem unite_least (a b c : QRect)
    (h : ∀ x y, a.contains x y ∨ b.contains x y → c.contains x y) (x y : Int)
    (hu : (a.unite b).contains x y) : c.contains x y := by
  cases ha : a.isValid
  · rw [unite_left_invalid a b ha] at hu
    exact h x y (Or.inr hu)
  · cases hb : b.isValid
    · rw [unite_right_invalid a b ha hb] at hu
      exact h x y (Or.inl hu)
    · rw [unite_valid a b ha hb] at hu
      simp only [QRect.isValid, Bool.and_eq_true, decide_eq_true_eq] at ha hb
      have a1 := h a.x1 a.y1 (Or.inl ⟨le_refl _, ha.1, le_refl _, ha.2⟩)
      have a2 := h a.x2 a.y2 (Or.inl ⟨ha.1, le_refl _, ha.2, le_refl _⟩)
      have b1 := h b.x1 b.y1 (Or.inr ⟨le_refl _, hb.1, le_refl _, hb.2⟩)
      have b2 := h b.x2 b.y2 (Or.inr ⟨hb.1, le_refl _, hb.2, le_refl _⟩)
      unfold QRect.contains at hu a1 a2 b1 b2 ⊢
      simp only at hu
      omega

/-- C10: `changed(r)` unites `r` into the pending rectangle `P`. The union
is the smallest rectangle that covers every point of `P` and of `r`: the
bounding rectangle of the two when both are valid, and the other one when
one of them is invalid (so `r` itself when `P` is the null rectangle). If
more than 100 ms have elapsed since the last clock start, `changed` emits
exactly that union as its only rectUpdated, resets the pending rectangle
to the null rectangle and restarts the clock; otherwise it emits no
rectUpdated, keeps the union pending and leaves the clock running. -/
theorem C10_changed_coalesces (s : State) (r : QRect) :
    (∀ x y, s.mLoadChangedRect.contains x y ∨ r.contains x y →
      (s.mLoadChangedRect.unite r).contains x y) ∧
    (∀ c : QRect, (∀ x y, s.mLoadChangedRect.contains x y ∨ r.contains x y → c.contains x y) →
      ∀ x y, (s.mLoadChangedRect.unite r).contains x y → c.contains x y) ∧
    (s.mLoadChangedRect.isValid = true → r.isValid = true →
      s.mLoadChangedRect.unite r =
        ⟨min s.mLoadChangedRect.x1 r.x1, min s.mLoadChangedRect.y1 r.y1,
         max s.mLoadChangedRect.x2 r.x2, max s.mLoadChangedRect.y2 r.y2⟩) ∧
    (s.mLoadChangedRect.isValid = false → s.mLoadChangedRect.unite r = r) ∧
    (s.mLoadChangedRect.isValid = true → r.isValid = false →
      s.mLoadChangedRect.unite r = s.mLoadChangedRect) ∧
    (100 < s.elapsed →
      (changed s r).2.filter (fun e => e.act.isRectUpdated) =
        [⟨s.now, .changed, .rectUpdated (s.mLoadChangedRect.unite r)⟩] ∧
      (changed s r).1.mLoadChangedRect = QRect.null ∧
      (changed s r).1.clockStart = s.now ∧
      (changed s r).1.elapsed = 0) ∧
    (s.elapsed ≤ 100 →
      (changed s r).2.filter (fun e => e.act.isRectUpdated) = [] ∧
      (changed s r).1.mLoadChangedRect = s.mLoadChangedRect.unite r ∧
      (changed s r).1.clockStart = s.clockStart ∧
      (changed s r).1.elapsed = s.elapsed) := by
  refine ⟨unite_contains _ _, unite_least _ _, unite_valid _ _, unite_left_invalid _ _,
    unite_right_invalid _ _, ?_, ?_⟩
  · rw [changed_eq]
    unfold State.elapsed
    intro h
    cases hu : s.mUpdatedDuringLoad <;> simp [h, Action.isRectUpdated]
  · rw [changed_eq]
    unfold State.elapsed
    intro h
    have h' : ¬ 100 < s.now - s.clockStart := by omega
    cases hu : s.mUpdatedDuringLoad <;> simp [h', Action.isRectUpdated]

theorem C10_changed_coalesces_witness :
    (run sampleEnv (initial 0)
      [.data [1, 2, 3], .tick ⟨[.changed ⟨0, 0, 3, 0⟩], 1⟩, .elapse 150]).1.mLoadChangedRect
      = ⟨0, 0, 3, 0⟩ ∧
    100 < (run sampleEnv (initial 0)
      [.data [1, 2, 3], .tick ⟨[.changed ⟨0, 0, 3, 0⟩], 1⟩, .elapse 150]).1.elapsed ∧
    (changed (run sampleEnv (initial 0)
      [.data [1, 2, 3], .tick ⟨[.changed ⟨0, 0, 3, 0⟩], 1⟩, .elapse 150]).1
      ⟨2, 1, 5, 2⟩).2.filter (fun e => e.act.isRectUpdated) =
      [⟨150, .changed, .rectUpdated ⟨0, 0, 5, 2⟩⟩] ∧
    (changed (run sampleEnv (initial 0)
      [.data [1, 2, 3], .tick ⟨[.changed ⟨0, 0, 3, 0⟩], 1⟩, .elapse 150]).1
      ⟨2, 1, 5, 2⟩).1.mLoadChangedRect = QRect.null :=
  ⟨by decide, by decide,
    ((C10_changed_coalesces (run sampleEnv (initial 0)
      [.data [1, 2, 3], .tick ⟨[.changed ⟨0, 0, 3, 0⟩], 1⟩, .elapse 150]).1
      ⟨2, 1, 5, 2⟩).2.2.2.2.2.1 (by decide)).1,
    ((C10_changed_coalesces (run sampleEnv (initial 0)
      [.data [1, 2, 3], .tick ⟨[.changed ⟨0, 0, 3, 0⟩], 1⟩, .elapse 150]).1
      ⟨2, 1, 5, 2⟩).2.2.2.2.2.1 (by decide)).2.1⟩

/-! ## The completion step (C7, C8, C9) -/

theorem consumerCall_sites (s : State) (c : ConsumerCall) :
    ∀ x ∈ (consumerCall s c).2, x.site ≠ .loadChunk := by
  cases c with
  | changed r =>
    rw [consumerCall, changed_eq]
    intro x hx
    simp only [List.mem_append] at hx
    rcases hx with hx | hx <;> split_ifs at hx <;> simp at hx <;> subst hx <;> simp
  | end_ =>
    intro x hx
    simp only [consumerCall, end_] at hx
    split_ifs at hx <;> simp [State.emit] at hx
    subst hx; simp
  | setSize w h =>
    intro x hx
    simp [consumerCall, setSize, State.emit] at hx
    rcases hx with rfl | rfl <;> simp
  | frameDone => simp [consumerCall]
  | setLooping => simp [consumerCall]
  | setFramePeriod => simp [consumerCall]
  | elapse ms => simp [consumerCall]
  | image img => simp [consumerCall]

theorem consumerCalls_sites (cs : List ConsumerCall) (s : State) :
    ∀ x ∈ (consumerCalls s cs).2, x.site ≠ .loadChunk := by
  induction cs generalizing s with
  | nil => simp [consumerCalls]
  | cons c cs ih =>
    intro x hx
    simp only [consumerCalls, List.mem_append] at hx
    rcases hx with hx | hx
    · exact consumerCall_sites s c x hx
    · exact ih _ x hx

theorem feedDecoder_sites (s : State) (reply : DecoderReply) :
    ∀ x ∈ (feedDecoder s reply).2.1, x.site ≠ .loadChunk := by
  unfold feedDecoder
  intro x hx
  split_ifs at hx
  · simp only [List.mem_cons] at hx
    rcases hx with rfl | hx
    · simp [State.emit]
    · exact consumerCalls_sites reply.calls s x hx
  · simp at hx

theorem syncDecode_log (env : Env) (s : State) :
    ∀ x ∈ (syncDecode env s).log, x.site ≠ .loadChunk ∧ x.act.isFinalizer = false := by
  intro x hx
  cases hj : s.jobAlive
  · rw [syncDecode_finished env s hj] at hx
    simp at hx
    subst hx
    simp [Action.isFinalizer]
  · rw [syncDecode_waiting env s hj] at hx
    simp at hx

theorem isFinalizer_streaming (a : Action) (h : a.streaming = true) : a.isFinalizer = false := by
  cases a <;> simp_all [Action.streaming, Action.isFinalizer]

/-- The decode step logs nothing in the name of `loadChunk` and no finalizer
entry. -/
theorem decodeStep_log (env : Env) (s : State) (reply : DecoderReply) :
    ∀ x ∈ (decodeStep env s reply).log, x.site ≠ .loadChunk ∧ x.act.isFinalizer = false := by
  have hf : ∀ x ∈ (feedDecoder s reply).2.1, x.site ≠ .loadChunk ∧ x.act.isFinalizer = false :=
    fun x hx => ⟨feedDecoder_sites s reply x hx,
      isFinalizer_streaming _ (feedDecoder_streaming s reply x hx)⟩
  unfold decodeStep
  split_ifs
  · exact syncDecode_log env s
  · unfold asyncDecode
    simp only
    split_ifs
    · exact hf
    · exact hf
    · intro x hx
      simp only [List.mem_append] at hx
      rcases hx with hx | hx
      · exact hf x hx
      · exact syncDecode_log env _ x hx
    · exact hf

theorem completion_of_decode_log (log : List Emission)
    (h : ∀ x ∈ log, x.site ≠ .loadChunk ∧ x.act.isFinalizer = false) :
    completionImages log = [] ∧ completionSizes log = [] ∧ finalizerActs log = [] := by
  refine ⟨?_, ?_, ?_⟩
  · unfold completionImages
    rw [List.filterMap_eq_nil_iff]
    intro x hx
    have := (h x hx).1
    split <;> simp_all
  · unfold completionSizes
    rw [List.filterMap_eq_nil_iff]
    intro x hx
    have := (h x hx).1
    split <;> simp_all
  · unfold finalizerActs
    rw [List.map_eq_nil_iff, List.filter_eq_nil_iff]
    intro x hx
    simp [(h x hx).2]

theorem completionImages_append (l1 l2 : List Emission) :
    completionImages (l1 ++ l2) = completionImages l1 ++ completionImages l2 := by
  simp [completionImages, List.filterMap_append]

theorem completionSizes_append (l1 l2 : List Emission) :
    completionSizes (l1 ++ l2) = completionSizes l1 ++ completionSizes l2 := by
  simp [completionSizes, List.filterMap_append]

theorem finalizerActs_append (l1 l2 : List Emission) :
    finalizerActs (l1 ++ l2) = finalizerActs l1 ++ finalizerActs l2 := by
  simp [finalizerActs]

theorem loadingSucceeded_log (env : Env) (s : State) (image : QImage) :
    completionImages (loadingSucceeded env s image).2 =
      (if deliversAtCompletion s image then [some (normalizeDepth image)] else []) ∧
    completionSizes (loadingSucceeded env s image).2 =
      (if deliversAtCompletion s image then [(image.width, image.height)] else []) ∧
    finalizerActs (loadingSucceeded env s image).2 =
      (if env.imageFormat s.mRawData = some "JPEG" then
        if env.urlIsLocalFile then [.switchToImpl (.jpegLoaded s.mRawData "")]
        else [.writeTempFile env.tempFileName s.mRawData,
              .switchToImpl (.jpegLoaded s.mRawData env.tempFileName)]
      else [.switchToImpl .loaded]) := by
  unfold loadingSucceeded switchToLoaded deliversAtCompletion normalizeDepth
  simp only [completionImages_append, completionSizes_append, finalizerActs_append]
  cases s with
  | mk u raw rd img ta rect cs ja su sy now al =>
    by_cases hc : image.depth < 32 ∧ image.hasAlphaBuffer = true <;>
      cases u <;>
      by_cases hf : env.imageFormat raw = some "JPEG" <;>
      cases hl : env.urlIsLocalFile <;>
      simp [hc, hf, hl, completionImages, completionSizes, finalizerActs, State.emit,
        Action.isFinalizer, QImage.convertDepth]

theorem changedRan_append (l1 l2 : List Emission) :
    changedRan (l1 ++ l2) ↔ changedRan l1 ∨ changedRan l2 := by
  simp [changedRan, List.mem_append, or_and_right, exists_or]

theorem flagTracks_seq {s : State} {r1 r2 : State × List Emission}
    (h1 : FlagTracks s r1) (h2 : FlagTracks r1.1 r2) : FlagTracks s (r2.1, r1.2 ++ r2.2) := by
  unfold FlagTracks at *
  rw [changedRan_append, h2, h1, or_assoc]

theorem flagTracks_quiet {s : State} {r : State × List Emission}
    (h1 : r.1.mUpdatedDuringLoad = s.mUpdatedDuringLoad) (h2 : ∀ x ∈ r.2, x.site ≠ .changed) :
    FlagTracks s r := by
  unfold FlagTracks changedRan
  rw [h1]
  constructor
  · intro h; exact Or.inl h
  · rintro (h | ⟨x, hx, hc⟩)
    · exact h
    · exact absurd hc (h2 x hx)

theorem changed_flagTracks (s : State) (r : QRect) : FlagTracks s (changed s r) := by
  rw [changed_eq]
  unfold FlagTracks changedRan
  by_cases h : 100 < s.now - s.clockStart <;> cases hu : s.mUpdatedDuringLoad <;> simp [h]

theorem consumerCall_flagTracks (s : State) (c : ConsumerCall) :
    FlagTracks s (consumerCall s c) := by
  cases c with
  | changed r => exact changed_flagTracks s r
  | end_ =>
    apply flagTracks_quiet
    · simp only [consumerCall, end_]; split_ifs <;> rfl
    · intro x hx
      simp only [consumerCall, end_] at hx
      split_ifs at hx <;> simp [State.emit] at hx
      subst hx; simp
  | setSize w h =>
    apply flagTracks_quiet rfl
    intro x hx
    simp [consumerCall, setSize, State.emit] at hx
    rcases hx with rfl | rfl <;> simp
  | frameDone => exact flagTracks_quiet rfl (by simp [consumerCall])
  | setLooping => exact flagTracks_quiet rfl (by simp [consumerCall])
  | setFramePeriod => exact flagTracks_quiet rfl (by simp [consumerCall])
  | elapse ms => exact flagTracks_quiet rfl (by simp [consumerCall])
  | image img => exact flagTracks_quiet rfl (by simp [consumerCall])

theorem consumerCalls_flagTracks (cs : List ConsumerCall) (s : State) :
    FlagTracks s (consumerCalls s cs) := by
  induction cs generalizing s with
  | nil => exact flagTracks_quiet rfl (by simp [consumerCalls])
  | cons c cs ih => exact flagTracks_seq (consumerCall_flagTracks s c) (ih _)

theorem feedDecoder_flagTracks (s : State) (reply : DecoderReply) :
    FlagTracks s ((feedDecoder s reply).1, (feedDecoder s reply).2.1) := by
  unfold feedDecoder
  split_ifs
  · have h := consumerCalls_flagTracks reply.calls s
    simpa [FlagTracks, changedRan, State.emit] using h
  · exact flagTracks_quiet rfl (by simp)

theorem syncDecode_flag (env : Env) (s : State) :
    (((syncDecode env s).ok = true ∧ (syncDecode env s).image = none) →
      (syncDecode env s).state = s ∧ (syncDecode env s).log = []) ∧
    ((syncDecode env s).image ≠ none → (syncDecode env s).state.mUpdatedDuringLoad = false) ∧
    (syncDecode env s).state.mSyncDecode = s.mSyncDecode := by
  cases hj : s.jobAlive
  · rw [syncDecode_finished env s hj]
    refine ⟨?_, fun _ => rfl, rfl⟩
    rintro ⟨h1, h2⟩
    simp only at h1 h2
    rw [h2] at h1
    cases h1
  · rw [syncDecode_waiting env s hj]
    exact ⟨fun _ => ⟨rfl, rfl⟩, fun h => absurd rfl h, rfl⟩

theorem decodeStep_flag (env : Env) (s : State) (reply : DecoderReply) :
    (((decodeStep env s reply).state.mSyncDecode = false ∨
        ((decodeStep env s reply).ok = true ∧ (decodeStep env s reply).image = none)) →
      FlagTracks s ((decodeStep env s reply).state, (decodeStep env s reply).log)) ∧
    (((decodeStep env s reply).state.mSyncDecode = true ∧ (decodeStep env s reply).image ≠ none) →
      (decodeStep env s reply).state.mUpdatedDuringLoad = false) := by
  have hf := feedDecoder_flagTracks s reply
  obtain ⟨-, -, -, -, -, f6, -⟩ := feedDecoder_sameScheduler s reply
  unfold decodeStep
  cases hm : s.mSyncDecode
  · simp only [Bool.false_eq_true, if_false]
    obtain ⟨g1, g2, g3⟩ := syncDecode_flag env { (feedDecoder s reply).1 with mSyncDecode := true }
    unfold asyncDecode
    simp only
    split_ifs
    · exact ⟨fun _ => hf, fun h => absurd rfl h.2⟩
    · exact ⟨fun _ => hf, fun h => absurd rfl h.2⟩
    · constructor
      · rintro (h | h)
        · simp only at h
          rw [g3] at h
          cases h
        · obtain ⟨e1, e2⟩ := g1 h
          simp only [e1, e2, List.append_nil]
          exact hf
      · intro h
        exact g2 h.2
    · constructor
      · intro _; exact hf
      · intro h
        simp only at h
        rw [f6, hm] at h
        cases h.1
  · simp only [if_true]
    obtain ⟨g1, g2, g3⟩ := syncDecode_flag env s
    constructor
    · rintro (h | h)
      · rw [g3, hm] at h; cases h
      · obtain ⟨e1, e2⟩ := g1 h
        rw [e1, e2]
        exact flagTracks_quiet rfl (by simp)
    · intro h
      exact g2 h.2

theorem loadChunk_alive_flagTracks (env : Env) (s : State) (reply : DecoderReply)
    (h : (loadChunk env s reply).1.alive = true) : FlagTracks s (loadChunk env s reply) := by
  cases hs : s.mSuspended
  · rcases loadChunk_cases env s reply hs with ⟨-, e⟩ | ⟨h1, h2, -, e⟩ | ⟨-, image, -, e⟩
    · rw [e] at h; cases h
    · have hd := (decodeStep_flag env s reply).1 (Or.inr ⟨h1, h2⟩)
      have hu : (loadChunk env s reply).1.mUpdatedDuringLoad =
          (decodeStep env s reply).state.mUpdatedDuringLoad := by
        rcases loadChunk_state env s reply hs with ⟨u, e2⟩ | ⟨e2, -⟩ | e2
        · rw [e2] at h; cases h
        · rw [e2]
        · rw [e2]
      unfold FlagTracks at hd ⊢
      rw [e, hu]
      exact hd
    · rw [e] at h
      simp only [loadingSucceeded_dead] at h
      cases h
  · rw [loadChunk_suspended env s reply hs]
    exact flagTracks_quiet rfl (by simp)

theorem step_alive_flagTracks (env : Env) (s : State) (e : Event)
    (h : (step env s e).1.alive = true) : FlagTracks s (step env s e) := by
  cases e with
  | elapse ms => exact flagTracks_quiet rfl (by simp [step])
  | data c =>
    simp only [step, slotDataReceived]
    split_ifs <;> exact flagTracks_quiet rfl (by simp)
  | result err =>
    simp only [step, slotResult] at h ⊢
    split_ifs at h ⊢ <;> exact flagTracks_quiet rfl (by simp)
  | tick reply =>
    simp only [step] at h ⊢
    split_ifs at h ⊢
    · exact loadChunk_alive_flagTracks env s reply h
    · exact flagTracks_quiet rfl (by simp)
  | suspend =>
    simp only [step, suspendLoading]
    split_ifs <;> exact flagTracks_quiet rfl (by simp)
  | resume =>
    simp only [step, resumeLoading]
    split_ifs <;> exact flagTracks_quiet rfl (by simp)

/-- While the object lives, `mUpdatedDuringLoad` records whether `changed` ran. -/
theorem run_alive_flagTracks (env : Env) (es : List Event) (s : State)
    (h : (run env s es).1.alive = true) : FlagTracks s (run env s es) := by
  induction es generalizing s with
  | nil => exact flagTracks_quiet rfl (by simp [run])
  | cons e es ih =>
    simp only [run] at h ⊢
    exact flagTracks_seq (step_alive_flagTracks env s e (run_alive_of_alive env es _ h)) (ih _ h)

theorem loadingSucceeded_sites (env : Env) (s : State) (image : QImage) :
    ∀ x ∈ (loadingSucceeded env s image).2, x.site = .loadChunk := by
  intro x hx
  unfold loadingSucceeded switchToLoaded at hx
  simp only [List.mem_append] at hx
  split_ifs at hx <;> simp [State.emit] at hx <;> casesm* _ ∨ _ <;> subst_vars <;> rfl

/-- A tick whose decode step yields an image runs the completion step. -/
theorem loadChunk_completion (env : Env) (s : State) (reply : DecoderReply) (image : QImage)
    (hs : s.mSuspended = false) (hok : (decodeStep env s reply).ok = true)
    (hi : (decodeStep env s reply).image = some image) :
    completionImages (loadChunk env s reply).2 =
      (if deliversAtCompletion (decodeStep env s reply).state image
        then [some (normalizeDepth image)] else []) ∧
    completionSizes (loadChunk env s reply).2 =
      (if deliversAtCompletion (decodeStep env s reply).state image
        then [(image.width, image.height)] else []) ∧
    finalizerActs (loadChunk env s reply).2 =
      (if env.imageFormat s.mRawData = some "JPEG" then
        if env.urlIsLocalFile then [.switchToImpl (.jpegLoaded s.mRawData "")]
        else [.writeTempFile env.tempFileName s.mRawData,
              .switchToImpl (.jpegLoaded s.mRawData env.tempFileName)]
      else [.switchToImpl .loaded]) ∧
    (∀ x ∈ (loadChunk env s reply).2, x.site = .changed → x ∈ (decodeStep env s reply).log) := by
  obtain ⟨d1, d2, d3⟩ := completion_of_decode_log _ (decodeStep_log env s reply)
  obtain ⟨raw, -⟩ := decodeStep_sameControl env s reply
  rcases loadChunk_cases env s reply hs with ⟨h1, -⟩ | ⟨-, h2, -⟩ | ⟨-, image2, h3, e⟩
  · rw [hok] at h1; cases h1
  · rw [hi] at h2; cases h2
  · rw [hi] at h3
    cases h3
    obtain ⟨c1, c2, c3⟩ := loadingSucceeded_log env (decodeStep env s reply).state image
    rw [e]
    simp only [completionImages_append, completionSizes_append, finalizerActs_append, d1, d2, d3,
      List.nil_append, c1, c2, c3, raw]
    refine ⟨trivial, trivial, trivial, ?_⟩
    intro x hx hc
    rcases List.mem_append.mp hx with hx | hx
    · exact hx
    · have := loadingSucceeded_sites env _ image x hx
      rw [hc] at this
      cases this

/-- C7, as stated, fails on `alphaSession`, which completes successfully:
`setSize` emits sizeUpdated during streaming and the completion step emits
it again after converting the image to 32 bits. -/
theorem C7_size_emitted_twice :
    countAct Action.isHandOff (run sampleEnv (initial 0) alphaSession).2 = 1 ∧
    streamingSizes (run sampleEnv (initial 0) alphaSession).2 = [(2, 2)] ∧
    completionSizes (run sampleEnv (initial 0) alphaSession).2 = [(2, 2)] := by
  decide

theorem changedRan_loadChunk (env : Env) (s : State) (reply : DecoderReply) (image : QImage)
    (hs : s.mSuspended = false) (hok : (decodeStep env s reply).ok = true)
    (hi : (decodeStep env s reply).image = some image) :
    changedRan (loadChunk env s reply).2 ↔ changedRan (decodeStep env s reply).log := by
  obtain ⟨-, -, -, h4⟩ := loadChunk_completion env s reply image hs hok hi
  obtain ⟨rest, e⟩ := loadChunk_log_prefix env s reply hs
  constructor
  · rintro ⟨x, hx, hc⟩
    exact ⟨x, h4 x hx hc, hc⟩
  · rintro ⟨x, hx, hc⟩
    exact ⟨x, by rw [e]; exact List.mem_append_left _ hx, hc⟩

/-- Rule by which the completion step delivers the image and its size, in
terms of the session so far. -/
theorem deliversAtCompletion_iff (env : Env) (now : Nat) (es : List Event) (reply : DecoderReply)
    (image : QImage)
    (ha : (run env (initial now) es).1.alive = true)
    (hs : (run env (initial now) es).1.mSuspended = false)
    (hok : (decodeStep env (run env (initial now) es).1 reply).ok = true)
    (hi : (decodeStep env (run env (initial now) es).1 reply).image = some image) :
    deliversAtCompletion (decodeStep env (run env (initial now) es).1 reply).state image = true ↔
      (¬ changedRan ((run env (initial now) es).2 ++
          (loadChunk env (run env (initial now) es).1 reply).2) ∨
        (decodeStep env (run env (initial now) es).1 reply).state.mSyncDecode = true ∨
        (image.depth < 32 ∧ image.hasAlphaBuffer = true)) := by
  have hpre := run_alive_flagTracks env es (initial now) ha
  unfold FlagTracks at hpre
  have h0 : (initial now).mUpdatedDuringLoad = false := rfl
  rw [h0] at hpre
  generalize (run env (initial now) es).2 = pre at hpre
  generalize (run env (initial now) es).1 = s at ha hs hok hi hpre
  obtain ⟨g1, g2⟩ := decodeStep_flag env s reply
  rw [changedRan_append, changedRan_loadChunk env s reply image hs hok hi]
  unfold deliversAtCompletion
  have hpre2 : s.mUpdatedDuringLoad = true ↔ changedRan pre := by
    rw [hpre]; simp
  cases hm : (decodeStep env s reply).state.mSyncDecode
  · have hd := g1 (Or.inl hm)
    unfold FlagTracks at hd
    simp only at hd
    rw [hpre2] at hd
    cases hu : (decodeStep env s reply).state.mUpdatedDuringLoad
    · have hn : ¬ (changedRan pre ∨ changedRan (decodeStep env s reply).log) := by
        rw [← hd, hu]; simp
      simp [hn]
    · have hn : changedRan pre ∨ changedRan (decodeStep env s reply).log := hd.mp hu
      simp [hn]
  · have hu := g2 ⟨hm, by rw [hi]; simp⟩
    simp [hu]

/-- C7, amended: when a tick of a session completes the load with image
`image`, the completion step emits sizeUpdated at most once, with the width
and height of `image`, and it does so exactly if no `changed` callback ran
during the session, or the image comes from the whole-buffer decode, or the
image is converted to 32 bits; a sizeUpdated emitted by `setSize` during
streaming plays no part. Every size report of the decoder is emitted at
once, as one sizeUpdated with the reported size, and changes no field. -/
theorem C7_size_notification (env : Env) (now : Nat) (es : List Event) (reply : DecoderReply)
    (image : QImage)
    (ha : (run env (initial now) es).1.alive = true)
    (ht : (run env (initial now) es).1.timerActive = true)
    (hs : (run env (initial now) es).1.mSuspended = false)
    (hok : (decodeStep env (run env (initial now) es).1 reply).ok = true)
    (hi : (decodeStep env (run env (initial now) es).1 reply).image = some image) :
    (completionSizes (step env (run env (initial now) es).1 (.tick reply)).2 =
        [(image.width, image.height)] ∨
      completionSizes (step env (run env (initial now) es).1 (.tick reply)).2 = []) ∧
    (completionSizes (step env (run env (initial now) es).1 (.tick reply)).2 =
        [(image.width, image.height)] ↔
      (¬ changedRan (run env (initial now) (es ++ [.tick reply])).2 ∨
        (decodeStep env (run env (initial now) es).1 reply).state.mSyncDecode = true ∨
        (image.depth < 32 ∧ image.hasAlphaBuffer = true))) ∧
    (∀ (t : State) (w h : Int),
      setSize t w h =
        (t, [⟨t.now, .setSize, .setImage (some ⟨w, h, 32, false⟩)⟩,
             ⟨t.now, .setSize, .sizeUpdated w h⟩]) ∧
      streamingSizes (setSize t w h).2 = [(w, h)]) := by
  have hiff := deliversAtCompletion_iff env now es reply image ha hs hok hi
  have hlog : (run env (initial now) (es ++ [.tick reply])).2 =
      (run env (initial now) es).2 ++ (loadChunk env (run env (initial now) es).1 reply).2 := by
    rw [run_append]
    simp [run, step, ha, ht]
  have hstep : step env (run env (initial now) es).1 (.tick reply) =
      loadChunk env (run env (initial now) es).1 reply := by
    simp [step, ha, ht]
  obtain ⟨-, c2, -⟩ := loadChunk_completion env _ reply image hs hok hi
  rw [hlog, hstep, c2, ← hiff]
  refine ⟨?_, ?_, ?_⟩
  · cases deliversAtCompletion (decodeStep env (run env (initial now) es).1 reply).state image
    · right; rfl
    · left; rfl
  · cases deliversAtCompletion (decodeStep env (run env (initial now) es).1 reply).state image <;>
      simp
  · intro t w h
    exact ⟨rfl, rfl⟩

theorem C7_size_notification_witness :
    streamingSizes (run sampleEnv (initial 0)
      [.data [1, 2, 3], .elapse 101,
       .tick ⟨[.image (some ⟨2, 2, 8, true⟩), .setSize 2 2, .changed ⟨0, 0, 1, 0⟩,
         .changed ⟨0, 1, 1, 1⟩, .end_], 3⟩,
       .result 0]).2 = [(2, 2)] ∧
    completionSizes (step sampleEnv (run sampleEnv (initial 0)
      [.data [1, 2, 3], .elapse 101,
       .tick ⟨[.image (some ⟨2, 2, 8, true⟩), .setSize 2 2, .changed ⟨0, 0, 1, 0⟩,
         .changed ⟨0, 1, 1, 1⟩, .end_], 3⟩,
       .result 0]).1 (.tick ⟨[], 0⟩)).2 = [(2, 2)] :=
  ⟨by decide,
    (C7_size_notification sampleEnv 0
      [.data [1, 2, 3], .elapse 101,
       .tick ⟨[.image (some ⟨2, 2, 8, true⟩), .setSize 2 2, .changed ⟨0, 0, 1, 0⟩,
         .changed ⟨0, 1, 1, 1⟩, .end_], 3⟩,
       .result 0] ⟨[], 0⟩ ⟨2, 2, 8, true⟩
      (by decide) (by decide) (by decide) (by decide) (by decide)).2.1.mpr
      (Or.inr (Or.inr (by decide)))⟩

/-- C9: when a tick completes the load, the finalizer does exactly this. For
format tag "JPEG" and a URL that is not a local file it writes one temporary
file holding the raw buffer byte for byte and hands over the JPEG loaded
implementation with the raw buffer and that file's path; for "JPEG" and a
local URL it hands over the JPEG loaded implementation with the raw buffer and
an empty path and writes no file; for any other format it hands over the
generic loaded implementation and writes no file. So a temporary file is
written if and only if the tag is "JPEG" and the URL is not local. -/
theorem C9_finalizer_dispatch (env : Env) (s : State) (reply : DecoderReply) (image : QImage)
    (hs : s.mSuspended = false) (hok : (decodeStep env s reply).ok = true)
    (hi : (decodeStep env s reply).image = some image) :
    finalizerActs (loadChunk env s reply).2 =
      (if env.imageFormat s.mRawData = some "JPEG" then
        if env.urlIsLocalFile then [.switchToImpl (.jpegLoaded s.mRawData "")]
        else [.writeTempFile env.tempFileName s.mRawData,
              .switchToImpl (.jpegLoaded s.mRawData env.tempFileName)]
      else [.switchToImpl .loaded]) ∧
    ((∃ path bytes, Action.writeTempFile path bytes ∈ finalizerActs (loadChunk env s reply).2) ↔
      (env.imageFormat s.mRawData = some "JPEG" ∧ env.urlIsLocalFile = false)) := by
  obtain ⟨-, -, c3, -⟩ := loadChunk_completion env s reply image hs hok hi
  rw [c3]
  refine ⟨rfl, ?_⟩
  by_cases hf : env.imageFormat s.mRawData = some "JPEG" <;>
    cases hl : env.urlIsLocalFile <;> simp [hf, hl]

theorem C9_finalizer_dispatch_witness :
    (decodeStep jpegEnv (run jpegEnv (initial 0) [.data [1, 2, 3], .result 0]).1 ⟨[], -1⟩).image =
      some ⟨4, 3, 32, false⟩ ∧
    finalizerActs (loadChunk jpegEnv (run jpegEnv (initial 0) [.data [1, 2, 3], .result 0]).1
      ⟨[], -1⟩).2 =
      [.writeTempFile "/tmp/gvremotefile" [1, 2, 3],
       .switchToImpl (.jpegLoaded [1, 2, 3] "/tmp/gvremotefile")] :=
  ⟨by decide,
    (C9_finalizer_dispatch jpegEnv (run jpegEnv (initial 0) [.data [1, 2, 3], .result 0]).1
      ⟨[], -1⟩ ⟨4, 3, 32, false⟩ (by decide) (by decide) (by decide)).1⟩

/-! ## The streaming tick (C11) -/

theorem decodeCalls_append (l1 l2 : List Emission) :
    decodeCalls (l1 ++ l2) = decodeCalls l1 ++ decodeCalls l2 := by
  simp [decodeCalls, List.filterMap_append]

theorem consumerCall_decodeCalls (s : State) (c : ConsumerCall) :
    decodeCalls (consumerCall s c).2 = [] := by
  cases c with
  | changed r =>
    rw [consumerCall, changed_eq]
    by_cases h : 100 < s.now - s.clockStart <;> cases hu : s.mUpdatedDuringLoad <;>
      simp [decodeCalls, h]
  | end_ =>
    simp only [consumerCall, end_]
    split_ifs <;> simp [decodeCalls, State.emit]
  | setSize w h => simp [consumerCall, setSize, decodeCalls, State.emit]
  | frameDone => simp [consumerCall, decodeCalls]
  | setLooping => simp [consumerCall, decodeCalls]
  | setFramePeriod => simp [consumerCall, decodeCalls]
  | elapse ms => simp [consumerCall, decodeCalls]
  | image img => simp [consumerCall, decodeCalls]

theorem consumerCalls_decodeCalls (cs : List ConsumerCall) (s : State) :
    decodeCalls (consumerCalls s cs).2 = [] := by
  induction cs generalizing s with
  | nil => simp [consumerCalls, decodeCalls]
  | cons c cs ih =>
    simp only [consumerCalls, decodeCalls_append, consumerCall_decodeCalls, ih, List.append_nil]

theorem feedDecoder_decodeCalls (s : State) (reply : DecoderReply) :
    decodeCalls (feedDecoder s reply).2.1 = (if 0 < chunkSize s then [chunk s] else []) := by
  unfold feedDecoder
  by_cases h : 0 < chunkSize s
  · have := consumerCalls_decodeCalls reply.calls s
    simp only [gt_iff_lt, h, if_true]
    rw [← List.singleton_append, decodeCalls_append, this]
    simp [decodeCalls, State.emit]
  · simp [h, decodeCalls]

theorem syncDecode_decodeCalls (env : Env) (s : State) :
    decodeCalls (syncDecode env s).log = [] := by
  cases hj : s.jobAlive
  · rw [syncDecode_finished env s hj]; simp [decodeCalls]
  · rw [syncDecode_waiting env s hj]; simp [decodeCalls]

theorem asyncDecode_decodeCalls (env : Env) (s : State) (reply : DecoderReply) :
    decodeCalls (asyncDecode env s reply).log = (if 0 < chunkSize s then [chunk s] else []) := by
  have hf := feedDecoder_decodeCalls s reply
  generalize (if 0 < chunkSize s then [chunk s] else []) = calls at hf ⊢
  unfold asyncDecode
  simp only
  split_ifs
  · exact hf
  · exact hf
  · simp only [decodeCalls_append, syncDecode_decodeCalls, List.append_nil]; exact hf
  · exact hf

theorem loadingSucceeded_decodeCalls (env : Env) (s : State) (image : QImage) :
    decodeCalls (loadingSucceeded env s image).2 = [] := by
  unfold loadingSucceeded switchToLoaded
  simp only [decodeCalls_append]
  split_ifs <;> simp [decodeCalls, State.emit]

theorem loadChunk_decodeCalls (env : Env) (s : State) (reply : DecoderReply)
    (hs : s.mSuspended = false) (hm : s.mSyncDecode = false) :
    decodeCalls (loadChunk env s reply).2 = (if 0 < chunkSize s then [chunk s] else []) := by
  have hd : decodeCalls (decodeStep env s reply).log =
      (if 0 < chunkSize s then [chunk s] else []) := by
    simp only [decodeStep, hm, Bool.false_eq_true, if_false]
    exact asyncDecode_decodeCalls env s reply
  rcases loadChunk_cases env s reply hs with ⟨-, e⟩ | ⟨-, -, -, e⟩ | ⟨-, image, -, e⟩
  · rw [e]
    simp only [decodeCalls_append, hd]
    simp [decodeCalls]
  · rw [e, hd]
  · rw [e]
    simp only [decodeCalls_append, hd, loadingSucceeded_decodeCalls, List.append_nil]

/-- Incremental decode when the decoder is called and reports a positive count. -/
theorem asyncDecode_positive (env : Env) (s : State) (reply : DecoderReply)
    (hc : 0 < chunkSize s) (hn : 0 < reply.consumed) :
    (asyncDecode env s reply).ok = true ∧ (asyncDecode env s reply).image = none ∧
    (asyncDecode env s reply).state.mReadSize = (s.mReadSize + reply.consumed.toNat) % UINT_MOD ∧
    (asyncDecode env s reply).log = (feedDecoder s reply).2.1 := by
  obtain ⟨-, f2, -⟩ := feedDecoder_sameScheduler s reply
  have e : (feedDecoder s reply).2.2 = reply.consumed := by simp [feedDecoder, hc]
  have h1 : (feedDecoder s reply).2.2 > 0 := by rw [e]; exact hn
  unfold asyncDecode
  simp only
  rw [if_pos h1]
  simp only [f2, e]
  exact ⟨trivial, trivial, trivial, trivial⟩

/-- C11, as stated, fails: three bytes have arrived and the source still
runs; the tick hands all three to the decoder, which reports 3, and
`loadChunk` then stops the timer to wait for more data. -/
theorem C11_timer_stops_when_all_read :
    (run sampleEnv (initial 0) [.data [1, 2, 3]]).1.mSuspended = false ∧
    (run sampleEnv (initial 0) [.data [1, 2, 3]]).1.mSyncDecode = false ∧
    (run sampleEnv (initial 0) [.data [1, 2, 3]]).1.timerActive = true ∧
    decodeCalls (step sampleEnv (run sampleEnv (initial 0) [.data [1, 2, 3]]).1
      (.tick ⟨[], 3⟩)).2 = [[1, 2, 3]] ∧
    (step sampleEnv (run sampleEnv (initial 0) [.data [1, 2, 3]]).1
      (.tick ⟨[], 3⟩)).1.mReadSize = 3 ∧
    (step sampleEnv (run sampleEnv (initial 0) [.data [1, 2, 3]]).1
      (.tick ⟨[], 3⟩)).1.timerActive = false := by
  decide

/-- Tick whose decode step neither fails nor yields an image. -/
theorem loadChunk_pending (env : Env) (s : State) (reply : DecoderReply)
    (hs : s.mSuspended = false) (hok : (decodeStep env s reply).ok = true)
    (hi : (decodeStep env s reply).image = none) :
    loadChunk env s reply =
      (if (decodeStep env s reply).state.mReadSize = (decodeStep env s reply).state.mRawData.length ∧
          (decodeStep env s reply).state.jobAlive = true
        then { (decodeStep env s reply).state with timerActive := false }
        else (decodeStep env s reply).state,
       (decodeStep env s reply).log) := by
  unfold loadChunk
  simp only [hs, Bool.false_eq_true, if_false]
  generalize decodeStep env s reply = d at hok hi
  simp only [hok, hi, Bool.not_true, Bool.false_eq_true, if_false]
  split_ifs <;> rfl

theorem isTerminal_streaming (a : Action) (h : a.streaming = true) : a.isTerminal = false := by
  cases a <;> simp_all [Action.streaming, Action.isTerminal]

/-- One unsuspended tick in incremental mode, on a state whose read cursor is
inside a buffer shorter than 2 ^ 32 bytes. -/
theorem loadChunk_streaming_tick (env : Env) (s : State) (reply : DecoderReply)
    (h : s.mReadSize ≤ s.mRawData.length) (hlen : s.mRawData.length < UINT_MOD)
    (hs : s.mSuspended = false) (hm : s.mSyncDecode = false) :
    decodeCalls (loadChunk env s reply).2 =
      (if 0 < min 4096 (s.mRawData.length - s.mReadSize) then
        [(s.mRawData.drop s.mReadSize).take (min 4096 (s.mRawData.length - s.mReadSize))]
      else []) ∧
    ((s.mRawData.drop s.mReadSize).take (min 4096 (s.mRawData.length - s.mReadSize))).length =
      min 4096 (s.mRawData.length - s.mReadSize) ∧
    (∀ n : Nat, 0 < n → s.mReadSize < s.mRawData.length → reply.consumed = (n : Int) →
      (loadChunk env s reply).1.mRawData = s.mRawData ∧
      (loadChunk env s reply).1.mReadSize = (s.mReadSize + n) % UINT_MOD ∧
      (n ≤ min 4096 (s.mRawData.length - s.mReadSize) →
        (loadChunk env s reply).1.mReadSize = s.mReadSize + n) ∧
      (loadChunk env s reply).1.alive = s.alive ∧
      countAct Action.isTerminal (loadChunk env s reply).2 = 0 ∧
      (loadChunk env s reply).1.timerActive =
        (if (loadChunk env s reply).1.mReadSize = s.mRawData.length ∧ s.jobAlive = true
          then false else s.timerActive)) := by
  have hc := chunkSize_eq s h hlen
  refine ⟨?_, ?_, ?_⟩
  · rw [loadChunk_decodeCalls env s reply hs hm, chunk, hc]
  · rw [List.length_take, List.length_drop]
    omega
  · intro n hn hlt hrep
    have hpos : 0 < chunkSize s := by rw [hc]; omega
    have hcons : 0 < reply.consumed := by rw [hrep]; exact_mod_cast hn
    have hd : decodeStep env s reply = asyncDecode env s reply := by
      simp [decodeStep, hm]
    obtain ⟨a1, a2, a3, a4⟩ := asyncDecode_positive env s reply hpos hcons
    obtain ⟨b1, b2, b3, -, b5⟩ := asyncDecode_sameControl env s reply
    have hrd : (asyncDecode env s reply).state.mReadSize = (s.mReadSize + n) % UINT_MOD := by
      rw [a3, hrep]; simp
    have e := loadChunk_pending env s reply hs (by rw [hd]; exact a1) (by rw [hd]; exact a2)
    rw [hd] at e
    have hterm : countAct Action.isTerminal (asyncDecode env s reply).log = 0 := by
      rw [a4]
      exact countAct_streaming _ _ isTerminal_streaming (feedDecoder_streaming s reply)
    rw [e]
    simp only [b1, b3, hrd]
    refine ⟨?_, ?_, ?_, ?_, hterm, ?_⟩
    · split_ifs <;> simp [b1]
    · split_ifs <;> simp [hrd]
    · intro hle
      have hsmall : s.mReadSize + n < UINT_MOD := by omega
      split_ifs <;> simp [hrd, Nat.mod_eq_of_lt hsmall]
    · split_ifs <;> simp [b5]
    · by_cases hcnd : (s.mReadSize + n) % UINT_MOD = s.mRawData.length ∧ s.jobAlive = true
      · simp [hcnd, hrd]
      · simp [hcnd, hrd, b2]

/-- C11, amended: take a live state reached from session start with a decoder
that never over-reports, a buffer shorter than 2 ^ 32 bytes, the scheduler
unsuspended and in incremental mode. A tick hands the decoder exactly the
slice of the raw buffer that starts at the read cursor and has length
min(4096, len - cursor), and calls the decoder not at all when that length is
0. When the decoder is called and reports a positive count n, the raw buffer
is unchanged, the read cursor becomes cursor + n modulo 2 ^ 32, which is
cursor + n when n does not exceed the slice length, the object lives on and
no terminal notification is emitted; the timer stays active unless the new
cursor equals the buffer length while the source still runs, in which case
it is stopped to wait for more data. -/
theorem C11_streaming_tick_feed (env : Env) (now : Nat) (es : List Event) (reply : DecoderReply)
    (hh : Honest env (initial now) es)
    (hlen : (run env (initial now) es).1.mRawData.length < UINT_MOD)
    (ha : (run env (initial now) es).1.alive = true)
    (ht : (run env (initial now) es).1.timerActive = true)
    (hs : (run env (initial now) es).1.mSuspended = false)
    (hm : (run env (initial now) es).1.mSyncDecode = false) :
    decodeCalls (step env (run env (initial now) es).1 (.tick reply)).2 =
      (if 0 < min 4096 ((run env (initial now) es).1.mRawData.length -
          (run env (initial now) es).1.mReadSize) then
        [((run env (initial now) es).1.mRawData.drop (run env (initial now) es).1.mReadSize).take
          (min 4096 ((run env (initial now) es).1.mRawData.length -
            (run env (initial now) es).1.mReadSize))]
      else []) ∧
    (((run env (initial now) es).1.mRawData.drop (run env (initial now) es).1.mReadSize).take
        (min 4096 ((run env (initial now) es).1.mRawData.length -
          (run env (initial now) es).1.mReadSize))).length =
      min 4096 ((run env (initial now) es).1.mRawData.length -
        (run env (initial now) es).1.mReadSize) ∧
    (∀ n : Nat, 0 < n →
      (run env (initial now) es).1.mReadSize < (run env (initial now) es).1.mRawData.length →
      reply.consumed = (n : Int) →
      (step env (run env (initial now) es).1 (.tick reply)).1.mRawData =
        (run env (initial now) es).1.mRawData ∧
      (step env (run env (initial now) es).1 (.tick reply)).1.mReadSize =
        ((run env (initial now) es).1.mReadSize + n) % UINT_MOD ∧
      (n ≤ min 4096 ((run env (initial now) es).1.mRawData.length -
          (run env (initial now) es).1.mReadSize) →
        (step env (run env (initial now) es).1 (.tick reply)).1.mReadSize =
          (run env (initial now) es).1.mReadSize + n) ∧
      (step env (run env (initial now) es).1 (.tick reply)).1.alive = true ∧
      countAct Action.isTerminal (step env (run env (initial now) es).1 (.tick reply)).2 = 0 ∧
      ((step env (run env (initial now) es).1 (.tick reply)).1.timerActive = false ↔
        ((step env (run env (initial now) es).1 (.tick reply)).1.mReadSize =
            (run env (initial now) es).1.mRawData.length ∧
          (run env (initial now) es).1.jobAlive = true))) := by
  have hinv := run_readSize_le env es (initial now) (Nat.le_refl 0) hh
  generalize (run env (initial now) es).1 = s at hlen ha ht hs hm hinv
  have hstep : step env s (.tick reply) = loadChunk env s reply := by
    simp [step, ha, ht]
  obtain ⟨c1, c2, c3⟩ := loadChunk_streaming_tick env s reply hinv hlen hs hm
  rw [hstep]
  refine ⟨c1, c2, ?_⟩
  intro n hn hlt hrep
  obtain ⟨d1, d2, d3, d4, d5, d6⟩ := c3 n hn hlt hrep
  refine ⟨d1, d2, d3, d4.trans ha, d5, ?_⟩
  rw [d6, ht]
  split_ifs with hc
  · simp [hc]
  · simp [hc]

theorem C11_streaming_tick_feed_witness :
    Honest sampleEnv (initial 0) [.data [1, 2, 3]] ∧
    decodeCalls (step sampleEnv (run sampleEnv (initial 0) [.data [1, 2, 3]]).1
      (.tick ⟨[], 2⟩)).2 = [[1, 2, 3]] ∧
    (step sampleEnv (run sampleEnv (initial 0) [.data [1, 2, 3]]).1
      (.tick ⟨[], 2⟩)).1.mReadSize = 2 ∧
    (step sampleEnv (run sampleEnv (initial 0) [.data [1, 2, 3]]).1
      (.tick ⟨[], 2⟩)).1.timerActive = true :=
  ⟨by decide,
    (C11_streaming_tick_feed sampleEnv 0 [.data [1, 2, 3]] ⟨[], 2⟩ (by decide) (by decide)
      (by decide) (by decide) (by decide) (by decide)).1,
    ((C11_streaming_tick_feed sampleEnv 0 [.data [1, 2, 3]] ⟨[], 2⟩ (by decide) (by decide)
      (by decide) (by decide) (by decide) (by decide)).2.2 2 (by decide) (by decide) rfl).2.2.1
      (by decide),
    by decide⟩

end Gwenview
